import Mathlib

/-!
Verification development for the piqnote commit-message pipeline.

The TypeScript sources are shallowly embedded: strings are Lean `String`
(a list of characters), JavaScript regular expressions are replaced by
explicit character-level scans with the same semantics, and the network
call of the remote provider is abstracted into an explicit outcome value.
Each definition mirrors one function of the repository; the source file
and function are named in its doc comment.
-/

namespace Piqnote

/-- JavaScript whitespace (the ASCII fragment used by `trim`, `\s`, `split(/\s+/)`):
space, tab, line feed, carriage return, vertical tab, form feed
(code points 32, 9, 10, 13, 11, 12). -/
def isWS (c : Char) : Bool :=
  c.toNat = 32 || c.toNat = 9 || c.toNat = 10 || c.toNat = 13 || c.toNat = 11 || c.toNat = 12

/-- Characters that the JavaScript `.` regex atom refuses to match
(`\n` is 10, `\r` is 13). -/
def isLineTerm (c : Char) : Bool := c.toNat = 10 || c.toNat = 13

/-- `[a-zA-Z]` (`a` = 97, `z` = 122, `A` = 65, `Z` = 90). -/
def isAsciiLetter (c : Char) : Bool :=
  (97 ≤ c.toNat && c.toNat ≤ 122) || (65 ≤ c.toNat && c.toNat ≤ 90)

/-- `[0-9]` (`0` = 48, `9` = 57). -/
def isAsciiDigit (c : Char) : Bool := 48 ≤ c.toNat && c.toNat ≤ 57

/-- The JavaScript `\w` class: letters, digits, underscore (`_` = 95). -/
def isWordChar (c : Char) : Bool := isAsciiLetter c || isAsciiDigit c || c.toNat = 95

/-- The punctuation class `[.!?;:,]` used by `stripTrailingPunctuation` and the
trailing-punctuation validator check (codes 46, 33, 63, 59, 58, 44). -/
def isPunctChar (c : Char) : Bool :=
  c.toNat = 46 || c.toNat = 33 || c.toNat = 63 || c.toNat = 59 || c.toNat = 58 || c.toNat = 44

/-- ASCII lower-casing of one character (`String.prototype.toLowerCase` on ASCII). -/
def lowerChar (c : Char) : Char :=
  if 65 ≤ c.toNat && c.toNat ≤ 90 then Char.ofNat (c.toNat + 32) else c

def ofList (cs : List Char) : String := ⟨cs⟩

def toLowerStr (s : String) : String := ofList (s.toList.map lowerChar)

def trimLeadList (cs : List Char) : List Char := cs.dropWhile isWS

def trimTrailList (cs : List Char) : List Char := (cs.reverse.dropWhile isWS).reverse

def trimList (cs : List Char) : List Char := trimTrailList (trimLeadList cs)

/-- `String.prototype.trim`. -/
def jsTrim (s : String) : String := ofList (trimList s.toList)

/-- `String.prototype.trimEnd`. -/
def jsTrimEnd (s : String) : String := ofList (trimTrailList s.toList)

/-- `String.prototype.includes`: `pat` occurs as a contiguous sublist of `cs`. -/
def containsSubList (cs pat : List Char) : Bool :=
  (List.range (cs.length + 1)).any fun i => pat.isPrefixOf (cs.drop i)

def containsSubStr (s pat : String) : Bool := containsSubList s.toList pat.toList

/-- `String.prototype.endsWith`. -/
def endsWithStr (s suf : String) : Bool := suf.toList.isSuffixOf s.toList

/-- `message.split("\n")[0]`. -/
def firstLine (s : String) : String := ofList (s.toList.takeWhile (fun c => c ≠ '\n'))

/-- Emptiness of a string (JavaScript falsiness of a string value). -/
def strIsEmpty (s : String) : Bool := s.toList.isEmpty

/-- `a || d` for an optional string position where `undefined` and `""` are falsy. -/
def strOrD (a : Option String) (d : String) : String :=
  match a with
  | some s => if strIsEmpty s then d else s
  | none => d

/-- `s.slice(0, n)` for a non-negative `n`. -/
def takeStr (s : String) (n : Nat) : String := ofList (s.toList.take n)

/-- `s.slice(0, n)` for a possibly negative `n` (negative counts from the end,
clamped at zero). -/
def jsSliceToInt (cs : List Char) (n : Int) : List Char :=
  if 0 ≤ n then cs.take n.toNat else cs.take (cs.length - (-n).toNat)

/-- `s.split(sep)` for a one-character separator, structurally recursive. -/
def splitOnChar (sep : Char) : List Char → List (List Char)
  | [] => [[]]
  | c :: rest =>
    let r := splitOnChar sep rest
    if c = sep then [] :: r
    else
      match r with
      | h :: t => (c :: h) :: t
      | [] => [[c]]

def splitStr (s : String) (sep : Char) : List String :=
  (splitOnChar sep s.toList).map ofList

/-- `Array.prototype.join(sep)`. -/
def joinWith (sep : String) : List String → String
  | [] => ""
  | [x] => x
  | x :: xs => x ++ sep ++ joinWith sep xs


/-! ### Subject parsing (cli.ts `parseSubject` and friends) -/

/-- Allowed commit types of `validateCommitContent` (cli.ts). -/
def allowedTypes : List String :=
  ["feat", "fix", "chore", "docs", "refactor", "perf", "test", "build", "ci", "style", "revert"]

/-- First words banned by `toImperative` (cli.ts). -/
def imperativeBlacklist : List String :=
  ["updates", "updated", "updating", "fixes", "fixed", "fixing", "adds", "added", "adding", "please"]

/-- `VAGUE_TERMS` (cli.ts). -/
def vagueTerms : List String := ["update", "misc", "stuff", "various", "changes"]

structure ParsedSubject where
  type : String
  scope : Option String
  description : String
  breaking : Bool
deriving Repr, DecidableEq

/-- The optional `(?:\((?<scope>[^)]+)\))?` group: if a `(` follows the type the
group must match (a nonempty `)`-free run closed by `)`), since on group failure
the regex engine immediately needs `!` or `:` and sees `(`. -/
def parseScopePart : List Char → Option (Option (List Char) × List Char)
  | '(' :: rest =>
      let sc := rest.takeWhile (fun c => c != ')')
      (match rest.dropWhile (fun c => c != ')') with
       | ')' :: r2 => if sc.isEmpty then none else some (some sc, r2)
       | _ => none)
  | r => some (none, r)

/-- The optional `(?<breaking>!)?` group. -/
def parseBang : List Char → Bool × List Char
  | '!' :: rest => (true, rest)
  | r => (false, r)

/-- The tail `\s+(?<desc>.+)$` of the subject regex, with JavaScript semantics:
`\s+` is a nonempty whitespace run, `.` matches no line terminator, `$` is the
end of input.  When the whole remainder is whitespace the greedy engine
backtracks and captures the final character alone. -/
def parseDescPart : List Char → Option (List Char)
  | [] => none
  | c :: rest =>
    if !isWS c then none
    else
      let r := (c :: rest).dropWhile isWS
      if r.isEmpty then
        if rest.isEmpty then none
        else
          match (c :: rest).getLast? with
          | some lastc => if isLineTerm lastc then none else some [lastc]
          | none => none
      else if r.any isLineTerm then none else some r

/-- The stage of the subject regex after the scope group: the optional `!`,
the mandatory `:`, and the `\s+(?<desc>.+)$` tail, assembling the parsed
record as the source does (type lower-cased, description trimmed). -/
def parseAfterScope (ty : List Char) (sc : Option (List Char)) (r2 : List Char) :
    Option ParsedSubject :=
  let br := parseBang r2
  match br.2 with
  | ':' :: rest =>
    (match parseDescPart rest with
     | none => none
     | some d =>
       some { type := ofList (ty.map lowerChar)
            , scope := sc.map ofList
            , description := ofList (trimList d)
            , breaking := br.1 })
  | _ => none

/-- cli.ts `parseSubject`: the regex
`/^(?<type>[a-z]+)(?:\((?<scope>[^)]+)\))?(?<breaking>!)?:\s+(?<desc>.+)$/i`,
with the type lower-cased and the description trimmed as in the source. -/
def parseSubject (subject : String) : Option ParsedSubject :=
  let cs := subject.toList
  let ty := cs.takeWhile isAsciiLetter
  if ty.isEmpty then none
  else
    match parseScopePart (cs.dropWhile isAsciiLetter) with
    | none => none
    | some (sc, r2) => parseAfterScope ty sc r2

/-- cli.ts `stripTrailingPunctuation`: `text.replace(/[.!?;:,]+$/g, "")`. -/
def stripTrailingPunctuation (text : String) : String :=
  ofList ((text.toList.reverse.dropWhile isPunctChar).reverse)

/-- cli.ts `toImperative`. -/
def toImperative (desc : String) : Bool :=
  let t := trimList desc.toList
  let first := ofList ((t.takeWhile (fun c => !isWS c)).map lowerChar)
  if strIsEmpty first then false
  else !(imperativeBlacklist.contains first)

/-- The template `` `${type}${scope ? `(${scope})` : ""}${breaking ? "!" : ""}: ${desc}` ``
used by `normalizeSubject` (an empty scope string is falsy). -/
def renderSubject (ty : String) (scope : Option String) (breaking : Bool) (desc : String) :
    String :=
  let scopeStr :=
    match scope with
    | some s => if strIsEmpty s then "" else "(" ++ s ++ ")"
    | none => ""
  ty ++ scopeStr ++ (if breaking then "!" else "") ++ ": " ++ desc

/-- cli.ts `normalizeSubject`. -/
def normalizeSubject (subject : String) (scopeFallback : String) : String :=
  let trimmed := stripTrailingPunctuation (jsTrim subject)
  match parseSubject trimmed with
  | some p =>
    let needsScope := (p.type == "feat" || p.type == "fix") && p.scope.isNone
    let scope := if needsScope then some scopeFallback else p.scope
    renderSubject p.type scope p.breaking p.description
  | none => "chore(" ++ scopeFallback ++ "): " ++ trimmed

/-- `/[.!?;:,]+$/.test text`. -/
def endsWithPunct (text : String) : Bool :=
  match text.toList.getLast? with
  | some c => isPunctChar c
  | none => false

/-! ### Pattern predicates of the validator (cli.ts) -/

/-- Occurrence of `pat` followed by a `\b` word boundary (end of input or a
non-word character); used for `/dist\b/i` and `/build\b/i`. -/
def occursWithBoundary (cs pat : List Char) : Bool :=
  (List.range (cs.length + 1)).any fun i =>
    pat.isPrefixOf (cs.drop i) &&
    (match cs.drop (i + pat.length) with
     | [] => true
     | c :: _ => !(isWordChar c))

/-- cli.ts `containsArtifacts`: `ARTIFACT_PATTERNS`
`[/node_modules/i, /dist\b/i, /build\b/i, /coverage/i, /\.turbo\//i]`. -/
def containsArtifacts (text : String) : Bool :=
  let l := text.toList.map lowerChar
  containsSubList l "node_modules".toList ||
  occursWithBoundary l "dist".toList ||
  occursWithBoundary l "build".toList ||
  containsSubList l "coverage".toList ||
  containsSubList l ".turbo/".toList

/-- Extension alternation of `FILE_MENTION` (cli.ts). -/
def fileExtensions : List String :=
  ["ts", "js", "jsx", "tsx", "json", "md", "css", "scss", "yml", "yaml", "lock", "log", "env"]

/-- cli.ts `FILE_MENTION`:
`/\b\w+\.(ts|js|jsx|tsx|json|md|css|scss|yml|yaml|lock|log|env)\b/i`.
A match needs a word character directly before the dot (the maximal word run
before the dot then starts at a word boundary) and an extension followed by a
word boundary after it. -/
def fileMention (text : String) : Bool :=
  let l := text.toList.map lowerChar
  (List.range l.length).any fun p =>
    l.get? p == some '.' &&
    (if p = 0 then false
     else match l.get? (p - 1) with
          | some c => isWordChar c
          | none => false) &&
    fileExtensions.any fun ext =>
      ext.toList.isPrefixOf (l.drop (p + 1)) &&
      (match l.drop (p + 1 + ext.length) with
       | [] => true
       | c :: _ => !(isWordChar c))

/-- cli.ts `PATH_MENTION`: `/[\\/]/`. -/
def pathMention (text : String) : Bool :=
  text.toList.any fun c => c = '/' || c = '\\'

/-- cli.ts `containsFiles`. -/
def containsFiles (text : String) : Bool := fileMention text || pathMention text

/-- cli.ts `containsVague`. -/
def containsVague (text : String) : Bool :=
  vagueTerms.any fun t => containsSubStr (toLowerStr text) t

/-! ### Configuration (config/types.ts, with the `?.` / `||` runtime semantics) -/

structure CommitCfg where
  styleOpt : Option String := none
  maxSubjectLengthOpt : Option Nat := none
  maxBulletsOpt : Option Nat := none
  bulletMarkOpt : Option String := none
deriving Repr, DecidableEq

structure Config where
  commit : Option CommitCfg := none
  scope : Option String := none
deriving Repr, DecidableEq

/-- `o || d` at a numeric position: both `undefined` and `0` fall back. -/
def natFalsyOr (o : Option Nat) (d : Nat) : Nat :=
  match o with
  | some n => if n = 0 then d else n
  | none => d

/-- `config.commit?.maxSubjectLength || 72`. -/
def cfgMaxSubjectLength (c : Config) : Nat :=
  natFalsyOr (c.commit.bind (·.maxSubjectLengthOpt)) 72

/-- `config.commit?.maxBullets || 2`. -/
def cfgMaxBullets (c : Config) : Nat :=
  natFalsyOr (c.commit.bind (·.maxBulletsOpt)) 2

/-- `config.commit?.bulletPrefix || "-"`. -/
def cfgBulletMark (c : Config) : String :=
  strOrD (c.commit.bind (·.bulletMarkOpt)) "-"

/-- `config.commit?.style === "conventional"`. -/
def cfgIsConventional (c : Config) : Bool :=
  (c.commit.bind (·.styleOpt)) == some "conventional"

structure ValidationResult where
  valid : Bool
  reasons : List String
deriving Repr, DecidableEq

/-- cli.ts `validateCommitContent`: all checks run, reasons accumulate in
source order, `valid` iff no reason. -/
def validateCommitContent (subject : String) (bullets : List String) (c : Config) :
    ValidationResult :=
  let maxLen := cfgMaxSubjectLength c
  let maxB := cfgMaxBullets c
  let subjectReasons :=
    match parseSubject subject with
    | none => ["Subject must follow Conventional Commits (type(scope): desc)"]
    | some p =>
      (if !(allowedTypes.contains p.type) then
        ["Unsupported commit type for semantic-release"] else []) ++
      (if (p.type == "feat" || p.type == "fix") && p.scope.isNone then
        ["feat/fix must include a scope"] else []) ++
      (if p.description.length = 0 then
        ["Subject description is required"] else []) ++
      (if !(toImperative p.description) then
        ["Subject should use imperative mood"] else []) ++
      (if endsWithPunct p.description then
        ["Subject must not end with punctuation"] else [])
  let lenReasons :=
    if maxLen < subject.length then
      ["Subject exceeds " ++ toString maxLen ++ " characters"] else []
  let artReasons :=
    if containsArtifacts subject || containsFiles subject then
      ["Subject references artifacts or file paths"] else []
  let vagueReasons :=
    if containsVague subject then
      ["Subject contains vague terms (update/misc/stuff)"] else []
  let countReasons :=
    if maxB < bullets.length then
      ["Too many bullets (max " ++ toString maxB ++ ")"] else []
  let perBullet :=
    (bullets.map fun b =>
      (if containsArtifacts b || containsFiles b then
        ["Bullets must not mention files or build artifacts"] else []) ++
      (if containsVague b then
        ["Bullets must add semantic value (avoid vague terms)"] else [])).flatten
  let reasons :=
    subjectReasons ++ lenReasons ++ artReasons ++ vagueReasons ++ countReasons ++ perBullet
  { valid := reasons.isEmpty, reasons := reasons }

/-! ### Formatter (formatter/commitFormatter.ts) -/

structure CommitPayload where
  subject : String
  bullets : List String
  insightsScope : Option String := none
deriving Repr, DecidableEq

/-- commitFormatter.ts `truncate`: keep the text when it fits, otherwise
`text.slice(0, max - 3).trimEnd() + "..."` (the slice bound may be negative). -/
def truncate (text : String) (maxLen : Nat) : String :=
  if text.length ≤ maxLen then text
  else ofList (trimTrailList (jsSliceToInt text.toList ((maxLen : Int) - 3))) ++ "..."

/-- Alternation order of commitFormatter.ts `conventionalRegex` (note: `test`
before `perf`, unlike the validator's allow list). -/
def conventionalTypeTokens : List String :=
  ["feat", "fix", "chore", "docs", "refactor", "test", "perf", "build", "ci", "style", "revert"]

/-- The optional `(\(.+\))?:` tail of `conventionalRegex`: an opening paren, a
nonempty line-terminator-free run, then `)` immediately followed by `:` —
`.+` may itself contain parens, so any later `):` pair works. -/
def parenCloseColon (rest : List Char) : Bool :=
  match rest with
  | '(' :: tail =>
    (List.range tail.length).any fun k =>
      tail.get? k == some ')' && tail.get? (k + 1) == some ':' &&
      decide (1 ≤ k) && !((tail.take k).any isLineTerm)
  | _ => false

/-- `conventionalRegex.test subject` for
`/^(feat|fix|chore|docs|refactor|test|perf|build|ci|style|revert)(\(.+\))?:/`
(no `i` flag: case sensitive). -/
def conventionalHead (subject : String) : Bool :=
  conventionalTypeTokens.any fun t =>
    t.toList.isPrefixOf subject.toList &&
    (let rest := subject.toList.drop t.length
     (match rest with | ':' :: _ => true | _ => false) || parenCloseColon rest)

/-- commitFormatter.ts `ensureConventional`. -/
def ensureConventional (subject : String) (scope : Option String) : String :=
  if conventionalHead subject then subject
  else
    match scope with
    | some s => if strIsEmpty s then "chore: " ++ subject else "chore(" ++ s ++ "): " ++ subject
    | none => "chore: " ++ subject

/-- `subject.replace(/^(feat|fix)(!?:)/, ...)` in `formatCommit`. -/
def scopeInject (s : String) (scope : String) : String :=
  let cs := s.toList
  if "feat!:".toList.isPrefixOf cs then "feat(" ++ scope ++ ")!:" ++ ofList (cs.drop 6)
  else if "feat:".toList.isPrefixOf cs then "feat(" ++ scope ++ "):" ++ ofList (cs.drop 5)
  else if "fix!:".toList.isPrefixOf cs then "fix(" ++ scope ++ ")!:" ++ ofList (cs.drop 5)
  else if "fix:".toList.isPrefixOf cs then "fix(" ++ scope ++ "):" ++ ofList (cs.drop 4)
  else s

/-- `config.scope || payload.insightsScope || "core"`. -/
def effectiveScope (c : Config) (insightsScope : Option String) : String :=
  strOrD c.scope (strOrD insightsScope "core")

/-- `Array.prototype.join("\n")`. -/
def joinLines : List String → String
  | [] => ""
  | [x] => x
  | x :: xs => x ++ "\n" ++ joinLines xs

/-- commitFormatter.ts `formatCommit`. -/
def formatCommit (payload : CommitPayload) (c : Config) : String :=
  let subjectLimit := cfgMaxSubjectLength c
  let bulletLimit := cfgMaxBullets c
  let mark := cfgBulletMark c
  let baseSubject := truncate payload.subject subjectLimit
  let desiredScope := effectiveScope c payload.insightsScope
  let fixed := scopeInject baseSubject desiredScope
  let scopedSubject :=
    if cfgIsConventional c then ensureConventional fixed (some desiredScope) else baseSubject
  let bullets :=
    (((payload.bullets.map jsTrim).filter (fun b => !(strIsEmpty b))).take bulletLimit).map
      (fun b => mark ++ " " ++ b)
  joinLines (scopedSubject :: bullets)

/-! ### Diff analyzer (analyzer/diffAnalyzer.ts) -/

structure DiffInsights where
  scope : Option String := none
  topics : List String := []
  bulletPoints : List String := []
  summary : String := ""
  isFrontend : Bool := false
  filesTouched : Nat := 0
  fileKinds : List String := []
deriving Repr, DecidableEq

def findSubIdx (cs pat : List Char) : Option Nat :=
  (List.range (cs.length + 1)).find? fun i => pat.isPrefixOf (cs.drop i)

/-- `s.replace(pat, "")` for a plain-string pattern: remove the first occurrence. -/
def replaceFirst (s pat : String) : String :=
  match findSubIdx s.toList pat.toList with
  | some i => ofList (s.toList.take i ++ s.toList.drop (i + pat.toList.length))
  | none => s

/-- diffAnalyzer.ts `extractFilePaths`. -/
def extractFilePaths (diff : String) : List String :=
  ((((splitStr diff '\n').filter fun line =>
      "+++ b/".toList.isPrefixOf line.toList || "--- a/".toList.isPrefixOf line.toList)
    |>.map fun line => replaceFirst (replaceFirst line "+++ b/") "--- a/")
    |>.filter fun s => !(strIsEmpty s))

def frontendScopeExts : List String :=
  [".ts", ".tsx", ".js", ".jsx", ".css", ".scss", ".sass", ".vue"]

def apiIndicators : List String := ["api", "server", "backend", "routes", "controllers"]

def configIndicators : List String := ["config", "settings", "env", "build", "webpack", "vite"]

/-- diffAnalyzer.ts `detectScopeFromPaths`: first matching path wins, extension
check before keyword checks. -/
def detectScopeFromPaths : List String → Option String
  | [] => none
  | file :: rest =>
    let l := toLowerStr file
    if frontendScopeExts.any (fun e => endsWithStr l e) then
      (if containsSubStr l "component" || containsSubStr l "ui" then some "ui" else some "front")
    else if apiIndicators.any (fun k => containsSubStr l k) then some "api"
    else if configIndicators.any (fun k => containsSubStr l k) then some "build"
    else detectScopeFromPaths rest

/-- diffAnalyzer.ts `extractAddedRemovedLines`. -/
def extractAddedRemovedLines (diff : String) : List String :=
  (((((splitStr diff '\n').filter fun line =>
       "+".toList.isPrefixOf line.toList || "-".toList.isPrefixOf line.toList)
     |>.filter fun line => !("+++".toList.isPrefixOf line.toList))
     |>.filter fun line => !("---".toList.isPrefixOf line.toList))
    |>.map (fun line => jsTrim (ofList (line.toList.drop 1))))
    |>.filter fun s => !(strIsEmpty s)

def keepWordChar (c : Char) : Bool :=
  isAsciiLetter c || isAsciiDigit c || c.toNat = 95 || c.toNat = 32

/-- Per-line word extraction of `pickTopTopics`:
`line.replace(/[^a-zA-Z0-9_ ]/g, " ").split(/\s+/).filter(Boolean)
.map(toLowerCase).filter(3 < len < 30)`. -/
def lineWords (line : String) : List String :=
  (((splitStr (ofList (line.toList.map fun c => if keepWordChar c then c else ' ')) ' ')
    |>.filter fun w => !(strIsEmpty w))
    |>.map toLowerStr)
    |>.filter fun w => 3 < w.length && w.length < 30

/-- One `keywordCount.set(word, (get || 0) + 1)` step: a JavaScript `Map` keeps
first-insertion order on update. -/
def bumpCount : List (String × Nat) → String → List (String × Nat)
  | [], w => [(w, 1)]
  | (k, n) :: rest, w =>
    if k == w then (k, n + 1) :: rest else (k, n) :: bumpCount rest w

/-- Stable insertion step for `sort((a, b) => b[1] - a[1])` (JavaScript sort is
stable: ties keep insertion order). -/
def insertByCountDesc (x : String × Nat) : List (String × Nat) → List (String × Nat)
  | [] => [x]
  | y :: ys => if y.2 ≤ x.2 then x :: y :: ys else y :: insertByCountDesc x ys

def sortByCountDesc (l : List (String × Nat)) : List (String × Nat) :=
  l.foldr insertByCountDesc []

/-- diffAnalyzer.ts `pickTopTopics`. -/
def pickTopTopics (lines : List String) (limit : Nat) : List String :=
  let counts := ((lines.map lineWords).flatten).foldl bumpCount []
  ((sortByCountDesc counts).take limit).map (·.1)

/-- diffAnalyzer.ts `buildSummary`. -/
def buildSummary (topics : List String) (scope : Option String) : String :=
  let topicText := if topics.isEmpty then "changes" else joinWith ", " topics
  match scope with
  | some s => if strIsEmpty s then "Updates around " ++ topicText else s ++ " updates: " ++ topicText
  | none => "Updates around " ++ topicText

def frontendRenderExts : List String := [".tsx", ".jsx", ".css", ".scss", ".sass", ".vue"]

/-- Extension extraction in `analyzeDiff`: `f.split(".")`, last part when the
split has more than one part. -/
def extOf (f : String) : String :=
  let parts := splitStr f '.'
  if 1 < parts.length then parts.getLastD "" else ""

/-- `Array.from(new Set(...))`: first-occurrence order deduplication. -/
def dedupFirst (l : List String) : List String :=
  l.foldl (fun acc x => if acc.contains x then acc else acc ++ [x]) []

/-- diffAnalyzer.ts `analyzeDiff`. -/
def analyzeDiff (diff : String) : DiffInsights :=
  let files := extractFilePaths diff
  let scope := detectScopeFromPaths files
  let lines := extractAddedRemovedLines diff
  let topics := pickTopTopics lines 4
  let bulletPoints := (lines.take 5).map fun line => takeStr line 80
  let summary := buildSummary topics scope
  let isFrontend := files.any fun f => frontendRenderExts.any fun e => endsWithStr (toLowerStr f) e
  let fileKinds := dedupFirst ((files.map extOf).filter fun s => !(strIsEmpty s))
  { scope := scope, topics := topics, bulletPoints := bulletPoints, summary := summary
  , isFrontend := isFrontend, filesTouched := files.length, fileKinds := fileKinds }

/-! ### Providers (ai/provider.ts, ai/localProvider.ts, the mock provider with
`generateMany`, ai/openAiProvider.ts) -/

structure AiResponse where
  subject : String
  bullets : List String
  rationale : List String := []
deriving Repr, DecidableEq

structure AiRequest where
  insights : DiffInsights
  language : String := "en"
  style : String := ""
deriving Repr, DecidableEq

/-- `line.replace(/^[+-]/, "")`: strip one leading `+` or `-`. -/
def stripLeadMarker (line : String) : String :=
  match line.toList with
  | '+' :: rest => ofList rest
  | '-' :: rest => ofList rest
  | _ => line

/-- The blocked patterns `[/node_modules/i, /dist\//i, /build\//i]` of the local
(and mock) provider's `sanitizeBullets`. -/
def localBlockedHit (line : String) : Bool :=
  containsSubStr (toLowerStr line) "node_modules" ||
  containsSubStr (toLowerStr line) "dist/" ||
  containsSubStr (toLowerStr line) "build/"

/-- `sanitizeBullets` of localProvider.ts (the mock provider carries a textually
identical copy). -/
def localSanitizeBullets (lines : List String) : List String :=
  ((((lines.map stripLeadMarker).map jsTrim).filter fun l => !(strIsEmpty l))
    |>.filter fun l => !localBlockedHit l)
    |>.take 2

/-- localProvider.ts `LocalAiProvider.generate`. -/
def localGenerate (request : AiRequest) : AiResponse :=
  let insights := request.insights
  let pre :=
    match insights.scope with
    | some s => if strIsEmpty s then "" else s ++ ": "
    | none => ""
  { subject := jsTrim (takeStr (pre ++ insights.summary) 72)
  , bullets := localSanitizeBullets insights.bulletPoints }

/-- Verb vocabulary of the deterministic mock provider. -/
def mockVerbs : List String :=
  ["refine", "fix", "add", "improve", "update", "tune", "adjust", "harden", "align", "streamline"]

/-- `pickVerb(seed)`: `verbs[seed % verbs.length]`. -/
def pickVerb (seed : Nat) : String := (mockVerbs[seed % mockVerbs.length]?).getD ""

/-- A `a || b || ...` fallback chain of optional strings. -/
def firstTruthy : List (Option String) → String → String
  | [], d => d
  | some s :: rest, d => if strIsEmpty s then firstTruthy rest d else s
  | none :: rest, d => firstTruthy rest d

/-- `insights.topics[seed % insights.topics.length] || insights.topics[0] ||
insights.summary || "changes"` (an empty topics list indexes at `NaN`, giving
`undefined`). -/
def mockTopic (insights : DiffInsights) (seed : Nat) : String :=
  let idxTopic :=
    if insights.topics.length = 0 then none
    else insights.topics.get? (seed % insights.topics.length)
  firstTruthy [idxTopic, insights.topics.get? 0, some insights.summary] "changes"

/-- `buildSubject` of the mock provider. -/
def buildMockSubject (insights : DiffInsights) (seed : Nat) : String :=
  let verb := pickVerb seed
  let scopePre :=
    match insights.scope with
    | some s => if strIsEmpty s then "" else s ++ ": "
    | none => ""
  jsTrim (verb ++ " " ++ scopePre ++ mockTopic insights seed)

/-- `MockAiProvider.generate` (deterministic variant: seed 0). -/
def mockGenerate (request : AiRequest) : AiResponse :=
  { subject := takeStr (buildMockSubject request.insights 0) 72
  , bullets := localSanitizeBullets request.insights.bulletPoints }

/-- `MockAiProvider.generateMany` (deterministic variant: seed = candidate index,
bullets offset by the index). -/
def mockGenerateMany (request : AiRequest) (count : Nat) : List AiResponse :=
  (((List.range count).map fun i =>
    ({ subject := takeStr (buildMockSubject request.insights i) 72
     , bullets := localSanitizeBullets (request.insights.bulletPoints.drop i) } : AiResponse))
   ).take count

/-- Outcome of the one network call of `OpenAiProvider.generate`: it throws, or
responds non-2xx, or responds with a (possibly empty) content string. -/
inductive NetOutcome
  | exc
  | notOk
  | ok (content : String)
deriving Repr, DecidableEq

/-- `line.replace(/^subject[:\-]\s*/i, "")` in `parseContent`. -/
def stripSubjectLabel (line : String) : String :=
  let cs := line.toList
  if "subject".toList.isPrefixOf (cs.map lowerChar) then
    match cs.drop 7 with
    | c :: rest => if c = ':' || c = '-' then ofList (rest.dropWhile isWS) else line
    | [] => line
  else line

/-- `OpenAiProvider.parseContent`. -/
def parseContent (content : String) : Option AiResponse :=
  let lines := ((splitStr content '\n').map jsTrim).filter fun l => !(strIsEmpty l)
  match lines with
  | [] => none
  | first :: rest =>
    let subject := jsTrim (takeStr (stripSubjectLabel first) 72)
    let bullets :=
      ((rest.filter fun l =>
          match l.toList with
          | c :: _ => c = '-' || c = '*' || c = '•'
          | [] => false)
        |>.map fun l =>
          match l.toList with
          | c :: tail =>
            if c = '-' || c = '*' || c = '•' then jsTrim (ofList (tail.dropWhile isWS))
            else jsTrim l
          | [] => l)
        |>.take 5
    some { subject := if strIsEmpty subject then takeStr first 72 else subject
         , bullets := bullets
         , rationale := ["Generated via OpenAI"] }

/-- `OpenAiProvider.generate` with its fallback set to the local provider (the
factory's configuration) and the network call abstracted into `net`: a missing
credential short-circuits to the fallback, and every failure outcome of the
call routes to the fallback as well.  The function is total: no exception
escapes. -/
def openAiGenerate (apiKey : String) (request : AiRequest) (net : NetOutcome) : AiResponse :=
  if strIsEmpty apiKey then localGenerate request
  else
    match net with
    | .exc => localGenerate request
    | .notOk => localGenerate request
    | .ok content =>
      if strIsEmpty content then localGenerate request
      else
        match parseContent content with
        | some r => r
        | none => localGenerate request

/-! ### Quality scorer (analyzer/scorer.ts) -/

structure ScoreDetail where
  label : String
  points : Nat
  reason : String
deriving Repr, DecidableEq

structure CommitScore where
  total : Nat
  details : List ScoreDetail
deriving Repr, DecidableEq

def scorerBlacklist : List String :=
  ["fixes", "fixed", "fixing", "adds", "added", "adding", "updates", "updated"]

/-- scorer.ts `isImperative`. -/
def scorerImperative (subject : String) : Bool :=
  let t := trimList subject.toList
  let first := ofList ((t.takeWhile fun c => !isWS c).map lowerChar)
  if strIsEmpty first then false
  else !(scorerBlacklist.contains first) && !(containsSubStr (toLowerStr subject) "please")

/-- scorer.ts `scoreCommit`. -/
def scoreCommit (message : String) (insights : DiffInsights) : CommitScore :=
  let subject := firstLine message
  let d1 : ScoreDetail :=
    if subject.length ≤ 72 then
      { label := "Subject length", points := 20, reason := "Within 72 characters" }
    else { label := "Subject length", points := 5, reason := "Too long" }
  let d2 : ScoreDetail :=
    if scorerImperative subject then
      { label := "Imperative mood", points := 15, reason := "Starts with a verb" }
    else { label := "Imperative mood", points := 5, reason := "Consider imperative verb" }
  let d3 : ScoreDetail :=
    if containsSubStr message "feat:" || containsSubStr message "fix:" ||
       containsSubStr message "chore:" || containsSubStr message "refactor:" then
      { label := "Conventional style", points := 15, reason := "Uses Conventional Commits" }
    else { label := "Conventional style", points := 5, reason := "Add a type prefix" }
  let bulletLines :=
    (splitStr message '\n').filter fun line => "-".toList.isPrefixOf (jsTrim line).toList
  let d4 : ScoreDetail :=
    if bulletLines.length ≠ 0 then
      { label := "Bullets", points := 15, reason := "Includes bullet points" }
    else { label := "Bullets", points := 5, reason := "Add bullets for clarity" }
  let d5 : ScoreDetail :=
    if insights.isFrontend then
      { label := "Frontend awareness", points := 10, reason := "Mentions UI-related changes" }
    else { label := "Frontend awareness", points := 8, reason := "General changes" }
  let d6 : ScoreDetail :=
    if 3 < insights.filesTouched then
      { label := "Scope breadth", points := 8, reason := "Multiple files" }
    else { label := "Scope breadth", points := 6, reason := "Focused change" }
  let details := [d1, d2, d3, d4, d5, d6]
  { total := min 100 (details.foldl (fun acc d => acc + d.points) 0), details := details }

/-! ### Suggestion orchestrator (cli.ts `sanitizeBullets`, `ensureBullets`,
`buildSuggestions`) -/

/-- cli.ts `sanitizeBullets`. -/
def sanitizeBullets (bullets : List String) (limit : Nat) : List String :=
  (((((bullets.map jsTrim).filter fun b => 0 < b.length)
    |>.filter fun b => !containsArtifacts b)
    |>.filter fun b => !fileMention b)
    |>.filter fun b => !pathMention b)
    |>.filter (fun b => !(vagueTerms.any fun t => toLowerStr b == t))
    |>.take (max 1 limit)

/-- cli.ts `ensureBullets`. -/
def ensureBullets (candidate fallbackList : List String) (limit : Nat) : List String :=
  let clean := sanitizeBullets candidate limit
  if clean.length ≠ 0 then clean else sanitizeBullets fallbackList limit

structure NormCand where
  subject : String
  bullets : List String
  formatted : String
  validation : ValidationResult
deriving Repr, DecidableEq

/-- Per-candidate body of the `responses.map` in `buildSuggestions`: normalize
the subject, fill bullets, format, validate the first formatted line with the
filled bullets. -/
def processResponse (c : Config) (insights : DiffInsights) (r : AiResponse) : NormCand :=
  let scopeFallback := strOrD c.scope (strOrD insights.scope "core")
  let bulletLimit := cfgMaxBullets c
  let subject := normalizeSubject r.subject scopeFallback
  let bullets := ensureBullets r.bullets insights.bulletPoints bulletLimit
  let formatted :=
    formatCommit { subject := subject, bullets := bullets, insightsScope := insights.scope } c
  { subject := subject, bullets := bullets, formatted := formatted
  , validation := validateCommitContent (firstLine formatted) bullets c }

structure BuildResult where
  messages : List String
  raw : List (String × List String)
deriving Repr, DecidableEq

/-- The candidates of one attempt that pass validation. -/
def validCands (c : Config) (insights : DiffInsights) (rs : List AiResponse) : List NormCand :=
  (rs.map (processResponse c insights)).filter fun n => n.validation.valid

/-- The `{ messages, raw }` value returned on a successful attempt. -/
def mkResult (valid : List NormCand) : BuildResult :=
  { messages := valid.map (·.formatted), raw := valid.map fun n => (n.subject, n.bullets) }

def buildFailureMsg : String :=
  "Unable to generate a valid semantic-release compatible commit message"

/-- cli.ts `buildSuggestions`: `maxAttempts = 3`; `gen i` abstracts the
responses the provider returns on attempt `i` (via `generateMany(request, 3)`
or a single `generate`); the first attempt with a valid candidate returns all
its valid candidates, exhaustion throws. -/
def buildSuggestions (c : Config) (insights : DiffInsights) (gen : Nat → List AiResponse) :
    Except String BuildResult :=
  if (validCands c insights (gen 0)).isEmpty then
    if (validCands c insights (gen 1)).isEmpty then
      if (validCands c insights (gen 2)).isEmpty then Except.error buildFailureMsg
      else Except.ok (mkResult (validCands c insights (gen 2)))
    else Except.ok (mkResult (validCands c insights (gen 1)))
  else Except.ok (mkResult (validCands c insights (gen 0)))

/-! ### General helper lemmas -/

lemma toNat_ofNat_valid (n : Nat) (h1 : n < 55296) : (Char.ofNat n).toNat = n := by
  have hv : n.isValidChar := Or.inl h1
  unfold Char.ofNat
  rw [dif_pos hv]
  simp [Char.ofNatAux, Char.toNat, UInt32.toNat]

lemma char_eq_of_toNat_eq {c d : Char} (h : c.toNat = d.toNat) : c = d :=
  Char.eq_of_val_eq (UInt32.ext h)

lemma lowerChar_toNat (c : Char) :
    (lowerChar c).toNat = if 65 ≤ c.toNat ∧ c.toNat ≤ 90 then c.toNat + 32 else c.toNat := by
  unfold lowerChar
  by_cases h : 65 ≤ c.toNat ∧ c.toNat ≤ 90
  · rw [if_pos (by simp only [Bool.and_eq_true, decide_eq_true_eq]; exact h), if_pos h]
    exact toNat_ofNat_valid _ (by omega)
  · rw [if_neg (by simp only [Bool.and_eq_true, decide_eq_true_eq]; exact h), if_neg h]

/-- Lower-casing a letter yields a letter, is idempotent, and never yields
whitespace. -/
lemma lowerChar_letter (c : Char) (h : isAsciiLetter c = true) :
    isAsciiLetter (lowerChar c) = true ∧ lowerChar (lowerChar c) = lowerChar c ∧
    isWS (lowerChar c) = false := by
  simp only [isAsciiLetter, Bool.or_eq_true, Bool.and_eq_true, decide_eq_true_eq] at h
  have h1 := lowerChar_toNat c
  have h2 := lowerChar_toNat (lowerChar c)
  by_cases hc : 65 ≤ c.toNat ∧ c.toNat ≤ 90
  · rw [if_pos hc] at h1
    rw [if_neg (by omega)] at h2
    refine ⟨?_, char_eq_of_toNat_eq h2, ?_⟩
    · simp only [isAsciiLetter, Bool.or_eq_true, Bool.and_eq_true, decide_eq_true_eq]
      omega
    · simp only [isWS, Bool.or_eq_false_iff, decide_eq_false_iff_not]
      omega
  · rw [if_neg hc] at h1
    rw [if_neg (by omega)] at h2
    refine ⟨?_, char_eq_of_toNat_eq h2, ?_⟩
    · simp only [isAsciiLetter, Bool.or_eq_true, Bool.and_eq_true, decide_eq_true_eq]
      omega
    · simp only [isWS, Bool.or_eq_false_iff, decide_eq_false_iff_not]
      omega

/-! ### Claim C4 -/

def c4Diff : String :=
  "--- a/server/api/routes/users.ts\n+++ b/server/api/routes/users.ts\n+const x = 1"

/-- Claim C4 counterexample: for a diff whose only touched path is
`server/api/routes/users.ts`, `analyzeDiff` does NOT return scope `"api"` —
the `.ts` extension puts the path in the front-end branch first, yielding
`"front"`. -/
theorem c4_counterexample :
    extractFilePaths c4Diff = ["server/api/routes/users.ts", "server/api/routes/users.ts"] ∧
    (analyzeDiff c4Diff).scope ≠ some "api" ∧
    (analyzeDiff c4Diff).scope = some "front" :=
  ⟨by decide, by decide, by decide⟩

/-- Claim C4 (amended): for any diff whose only touched file path is
`server/api/routes/users.ts`, `analyzeDiff` returns scope `"front"` (not
`"api"`): the path's `.ts` extension matches the front-end extension list,
which `detectScopeFromPaths` checks before the API indicators. -/
theorem c4_scope_front (diff : String)
    (hne : extractFilePaths diff ≠ [])
    (hall : ∀ p ∈ extractFilePaths diff, p = "server/api/routes/users.ts") :
    (analyzeDiff diff).scope = some "front" := by
  have hsc : (analyzeDiff diff).scope = detectScopeFromPaths (extractFilePaths diff) := rfl
  rw [hsc]
  rcases hfp : extractFilePaths diff with _ | ⟨f, rest⟩
  · exact absurd hfp hne
  · have hf : f = "server/api/routes/users.ts" :=
      hall f (by rw [hfp]; exact List.mem_cons_self f rest)
    subst hf
    have h1 : (frontendScopeExts.any fun e =>
        endsWithStr (toLowerStr "server/api/routes/users.ts") e) = true := by decide
    have h2 : (containsSubStr (toLowerStr "server/api/routes/users.ts") "component" ||
        containsSubStr (toLowerStr "server/api/routes/users.ts") "ui") = false := by decide
    simp only [detectScopeFromPaths, h1, h2]
    rfl

/-- Claim C4 witness: the amended theorem applied to a concrete diff. -/
theorem c4_scope_front_witness :
    extractFilePaths c4Diff ≠ [] ∧
    (∀ p ∈ extractFilePaths c4Diff, p = "server/api/routes/users.ts") ∧
    (analyzeDiff c4Diff).scope = some "front" :=
  ⟨by decide, by decide, c4_scope_front c4Diff (by decide) (by decide)⟩

/-! ### Claim C5 -/

/-- Claim C5 counterexample: `"update stuff"` normalizes to
`"chore(core): update stuff"` and the validator rejects it, but the
imperative-mood reason claimed by the spec is NOT among the reasons —
`"update"` is not in the `toImperative` blacklist (only
updates/updated/updating are). -/
theorem c5_counterexample :
    normalizeSubject "update stuff" "core" = "chore(core): update stuff" ∧
    (validateCommitContent "chore(core): update stuff" [] {}).valid = false ∧
    "Subject should use imperative mood" ∉
      (validateCommitContent "chore(core): update stuff" [] {}).reasons :=
  ⟨by decide, by decide, by decide⟩

/-- Claim C5 (amended): `"update stuff"` with scope fallback `"core"`
normalizes to `"chore(core): update stuff"`; the validator then rejects it
with exactly one reason, the vague-terms reason (covering both "update" and
"stuff"); the imperative-mood check passes because `"update"` is not a
blacklisted first word. -/
theorem c5_update_stuff_vague_only :
    normalizeSubject "update stuff" "core" = "chore(core): update stuff" ∧
    (validateCommitContent "chore(core): update stuff" [] {}).valid = false ∧
    (validateCommitContent "chore(core): update stuff" [] {}).reasons =
      ["Subject contains vague terms (update/misc/stuff)"] ∧
    toImperative "update stuff" = true :=
  ⟨by decide, by decide, by decide, by decide⟩

/-! ### Claim C6 -/

/-- Claim C6: the remote generator with an empty API key returns exactly the
local fallback generator's output for every request and every network
outcome; the same transparent fallback holds on a thrown exception, a
non-success response, and empty content.  `openAiGenerate` is a total
function, so no exception propagates to the caller. -/
theorem c6_openai_fallback (request : AiRequest) (net : NetOutcome) (apiKey : String) :
    openAiGenerate "" request net = localGenerate request ∧
    openAiGenerate apiKey request NetOutcome.exc = localGenerate request ∧
    openAiGenerate apiKey request NetOutcome.notOk = localGenerate request ∧
    openAiGenerate apiKey request (NetOutcome.ok "") = localGenerate request := by
  refine ⟨rfl, ?_, ?_, ?_⟩ <;> by_cases h : strIsEmpty apiKey <;> simp [openAiGenerate, h, strIsEmpty]

/-! ### Claim C9 -/

/-- Claim C9: `scoreCommit` returns exactly six detail scores, each awarded
per the fixed table (subject ≤ 72 chars → 20 else 5; imperative first word →
15 else 5; recognized type-prefix token → 15 else 5; at least one bullet →
15 else 5; frontend diff → 10 else 8; more than 3 files → 8 else 6); the
total is their sum capped at 100, hence between 0 and 100. -/
theorem c9_scoreCommit_table (message : String) (insights : DiffInsights) :
    (scoreCommit message insights).details.length = 6 ∧
    (scoreCommit message insights).total ≤ 100 ∧
    (scoreCommit message insights).details.map (fun d => d.points) =
      [ (if (firstLine message).length ≤ 72 then 20 else 5)
      , (if scorerImperative (firstLine message) then 15 else 5)
      , (if containsSubStr message "feat:" || containsSubStr message "fix:" ||
           containsSubStr message "chore:" || containsSubStr message "refactor:" then 15 else 5)
      , (if ((splitStr message '\n').filter fun line =>
             "-".toList.isPrefixOf (jsTrim line).toList).length ≠ 0 then 15 else 5)
      , (if insights.isFrontend then 10 else 8)
      , (if 3 < insights.filesTouched then 8 else 6) ] ∧
    (scoreCommit message insights).total =
      min 100 (((scoreCommit message insights).details.map (fun d => d.points)).sum) := by
  refine ⟨rfl, Nat.min_le_left 100 _, ?_, ?_⟩
  · simp only [scoreCommit, List.map, apply_ite (fun d : ScoreDetail => d.points)]
  · simp only [scoreCommit, List.map, List.sum_cons, List.sum_nil, List.foldl,
      apply_ite (fun d : ScoreDetail => d.points)]
    omega

/-! ### Claim C8 -/

lemma dropWhile_eq_self_of_all (p : Char → Bool) (l : List Char) (h : ∀ c ∈ l, p c = false) :
    l.dropWhile p = l := by
  cases l with
  | nil => rfl
  | cons c cs =>
    rw [List.dropWhile_cons, if_neg]
    simp [h c (List.mem_cons_self c cs)]

/-- A whitespace-free left part survives trailing trimming as a prefix. -/
lemma trimTrail_append_prefix (v r : List Char) (hnw : ∀ c ∈ v, isWS c = false) :
    v <+: trimTrailList (v ++ r) := by
  unfold trimTrailList
  rw [List.reverse_append, List.dropWhile_append]
  split
  · rw [dropWhile_eq_self_of_all isWS v.reverse
      (fun c hc => hnw c (List.mem_reverse.mp hc))]
    rw [List.reverse_reverse]
  · rw [List.reverse_append, List.reverse_reverse]
    exact List.prefix_append v _

/-- A whitespace-free nonempty left part is a prefix of the trimmed append. -/
lemma prefix_trimList_append (v r : List Char) (h1 : v ≠ [])
    (h2 : ∀ c ∈ v, isWS c = false) : v <+: trimList (v ++ r) := by
  unfold trimList trimLeadList
  rw [List.dropWhile_append, dropWhile_eq_self_of_all isWS v h2, if_neg (by simp [h1])]
  exact trimTrail_append_prefix _ _ h2

/-- The rotating verb really is a member of the vocabulary. -/
lemma pickVerb_mem (i : Nat) : pickVerb i ∈ mockVerbs := by
  have hlt : i % mockVerbs.length < mockVerbs.length := Nat.mod_lt _ (by decide)
  unfold pickVerb
  rcases hv : mockVerbs[i % mockVerbs.length]? with _ | v
  · rw [List.getElem?_eq_none_iff] at hv
    omega
  · exact List.getElem?_mem hv

lemma verb_prefix_mock (v p t : String) (h1 : v.toList ≠ [])
    (h2 : ∀ c ∈ v.toList, isWS c = false) :
    v.toList <+: (jsTrim (v ++ " " ++ p ++ t)).toList := by
  have hl : (v ++ " " ++ p ++ t).toList = v.toList ++ (" " ++ p ++ t).toList := by
    show (v ++ " " ++ p ++ t).data = v.data ++ (" " ++ p ++ t).data
    simp [List.append_assoc]
  show v.toList <+: trimList ((v ++ " " ++ p ++ t).toList)
  rw [hl]
  exact prefix_trimList_append _ _ h1 h2

/-- The chosen verb is a prefix of the mock subject (trimming cannot eat into
it since verbs contain no whitespace). -/
lemma pickVerb_prefix_buildMockSubject (insights : DiffInsights) (i : Nat) :
    (pickVerb i).toList <+: (buildMockSubject insights i).toList := by
  have hv := pickVerb_mem i
  have hfacts : (pickVerb i).toList ≠ [] ∧ ∀ c ∈ (pickVerb i).toList, isWS c = false := by
    have hall : ∀ w ∈ mockVerbs, w.toList ≠ [] ∧ ∀ c ∈ w.toList, isWS c = false := by decide
    exact hall _ hv
  simp only [buildMockSubject]
  exact verb_prefix_mock (pickVerb i) _ (mockTopic insights i) hfacts.1 hfacts.2

/-- Claim C8: the deterministic mock provider.  `generate` and `generateMany`
are functions of the request alone (two runs on identical inputs agree); the
i-th candidate of `generateMany` is built from seed `i`, whose leading verb
is `mockVerbs[i % mockVerbs.length]` — a prefix of the candidate's subject. -/
theorem c8_mock_deterministic (request : AiRequest) (n i : Nat) (hi : i < n) :
    mockGenerate request = mockGenerate request ∧
    mockGenerateMany request n = mockGenerateMany request n ∧
    (mockGenerateMany request n)[i]? =
      some { subject := takeStr (buildMockSubject request.insights i) 72
           , bullets := localSanitizeBullets (request.insights.bulletPoints.drop i)
           , rationale := [] } ∧
    pickVerb i = (mockVerbs[i % mockVerbs.length]?).getD "" ∧
    (pickVerb i).toList <+: (takeStr (buildMockSubject request.insights i) 72).toList ∧
    mockGenerate request =
      { subject := takeStr (buildMockSubject request.insights 0) 72
      , bullets := localSanitizeBullets request.insights.bulletPoints } := by
  refine ⟨rfl, rfl, ?_, rfl, ?_, rfl⟩
  · unfold mockGenerateMany
    rw [List.getElem?_take_of_lt hi, List.getElem?_map, List.getElem?_range hi]
    rfl
  · show (pickVerb i).toList <+: ((buildMockSubject request.insights i).toList.take 72)
    rw [List.prefix_take_iff]
    refine ⟨pickVerb_prefix_buildMockSubject request.insights i, ?_⟩
    have hlen : ∀ v ∈ mockVerbs, v.toList.length ≤ 72 := by decide
    exact hlen _ (pickVerb_mem i)

/-! ### Claim C1 -/

lemma trimTrail_length_le (l : List Char) : (trimTrailList l).length ≤ l.length := by
  unfold trimTrailList
  rw [List.length_reverse]
  calc (l.reverse.dropWhile isWS).length ≤ l.reverse.length :=
        (List.dropWhile_suffix isWS).length_le
    _ = l.length := List.length_reverse l

/-- `truncate` itself never exceeds the limit once the limit is at least 3. -/
lemma truncate_length_le (t : String) (m : Nat) (h3 : 3 ≤ m) : (truncate t m).length ≤ m := by
  unfold truncate
  split
  · assumption
  · rw [String.length_append]
    have h1 : (jsSliceToInt t.toList ((m : Int) - 3)).length ≤ m - 3 := by
      unfold jsSliceToInt
      rw [if_pos (by omega)]
      have he : ((m : Int) - 3).toNat = m - 3 := by omega
      rw [he]
      exact List.length_take_le _ _
    have h2 : (ofList (trimTrailList (jsSliceToInt t.toList ((m : Int) - 3)))).length ≤ m - 3 :=
      le_trans (trimTrail_length_le _) h1
    have hd : ("..." : String).length = 3 := rfl
    omega

lemma firstLine_length_le (s : String) : (firstLine s).length ≤ s.length := by
  show (s.toList.takeWhile _).length ≤ s.toList.length
  exact (List.takeWhile_prefix _).length_le

lemma takeWhile_newline_append (l r : List Char) :
    ((l ++ '\n' :: r).takeWhile (fun c => c ≠ '\n')).length ≤ l.length := by
  induction l with
  | nil =>
    rw [List.nil_append, List.takeWhile_cons, if_neg (by simp)]
  | cons c cs ih =>
    rw [List.cons_append, List.takeWhile_cons]
    by_cases h : c = '\n'
    · rw [if_neg (by simp [h])]
      simp
    · rw [if_pos (by simp [h])]
      simp only [List.length_cons]
      omega

/-- The first line of a joined message is no longer than its head line. -/
lemma firstLine_joinLines_le (a : String) (bs : List String) :
    (firstLine (joinLines (a :: bs))).length ≤ a.length := by
  cases bs with
  | nil => exact firstLine_length_le a
  | cons b bs2 =>
    show ((a ++ "\n" ++ joinLines (b :: bs2)).toList.takeWhile
        (fun c => c ≠ '\n')).length ≤ a.length
    have hl : (a ++ "\n" ++ joinLines (b :: bs2)).toList =
        a.toList ++ '\n' :: (joinLines (b :: bs2)).toList := by
      show (a ++ "\n" ++ joinLines (b :: bs2)).data =
        a.data ++ '\n' :: (joinLines (b :: bs2)).data
      simp
    rw [hl]
    exact takeWhile_newline_append a.toList _

/-- Scope injection grows the subject by at most `scope.length + 2`. -/
lemma scopeInject_length_le (s scope : String) :
    (scopeInject s scope).length ≤ s.length + scope.length + 2 := by
  simp only [scopeInject]
  split_ifs with h1 h2 h3 h4
  · have hle : 6 ≤ s.toList.length := by
      simpa using (List.isPrefixOf_iff_prefix.mp h1).length_le
    have hr : (ofList (s.toList.drop 6)).length = s.toList.length - 6 := by
      show (s.toList.drop 6).length = _
      simp
    simp only [String.length_append, hr]
    have hs : s.length = s.toList.length := rfl
    have ha : ("feat(" : String).length = 5 := rfl
    have hb : (")!:" : String).length = 3 := rfl
    omega
  · have hle : 5 ≤ s.toList.length := by
      simpa using (List.isPrefixOf_iff_prefix.mp h2).length_le
    have hr : (ofList (s.toList.drop 5)).length = s.toList.length - 5 := by
      show (s.toList.drop 5).length = _
      simp
    simp only [String.length_append, hr]
    have hs : s.length = s.toList.length := rfl
    have ha : ("feat(" : String).length = 5 := rfl
    have hb : ("):" : String).length = 2 := rfl
    omega
  · have hle : 5 ≤ s.toList.length := by
      simpa using (List.isPrefixOf_iff_prefix.mp h3).length_le
    have hr : (ofList (s.toList.drop 5)).length = s.toList.length - 5 := by
      show (s.toList.drop 5).length = _
      simp
    simp only [String.length_append, hr]
    have hs : s.length = s.toList.length := rfl
    have ha : ("fix(" : String).length = 4 := rfl
    have hb : (")!:" : String).length = 3 := rfl
    omega
  · have hle : 4 ≤ s.toList.length := by
      simpa using (List.isPrefixOf_iff_prefix.mp h4).length_le
    have hr : (ofList (s.toList.drop 4)).length = s.toList.length - 4 := by
      show (s.toList.drop 4).length = _
      simp
    simp only [String.length_append, hr]
    have hs : s.length = s.toList.length := rfl
    have ha : ("fix(" : String).length = 4 := rfl
    have hb : ("):" : String).length = 2 := rfl
    omega
  · omega

/-- Conventional wrapping grows the subject by at most `scope.length + 9`. -/
lemma ensureConventional_length_le (s sc : String) :
    (ensureConventional s (some sc)).length ≤ s.length + sc.length + 9 := by
  simp only [ensureConventional]
  split
  · omega
  · split
    · simp only [String.length_append]
      have h7 : ("chore: " : String).length = 7 := rfl
      omega
    · simp only [String.length_append]
      have h6 : ("chore(" : String).length = 6 := rfl
      have h3 : ("): " : String).length = 3 := rfl
      omega

def c1Cfg : Config :=
  { commit := some { styleOpt := some "conventional", maxSubjectLengthOpt := some 72,
                     maxBulletsOpt := some 2, bulletMarkOpt := some "-" }
  , scope := some "core" }

def c1Payload : CommitPayload :=
  { subject := "aaaaaaaaaaaaaaaaaaaaaaaaaaaaaaaaaaaaaaaaaaaaaaaaaaaaaaaaaaaaaaaaaaaaaaaa"
  , bullets := [] }

/-- Claim C1 counterexample: with the default limit 72 and conventional style,
a 72-character non-conventional subject is not truncated, but the
chore-wrapping applied afterwards pushes the first line to 85 characters —
more than the configured maximum. -/
theorem c1_counterexample :
    cfgMaxSubjectLength c1Cfg = 72 ∧
    (firstLine (formatCommit c1Payload c1Cfg)).length = 85 ∧
    cfgMaxSubjectLength c1Cfg < (firstLine (formatCommit c1Payload c1Cfg)).length :=
  ⟨by decide, by decide, by decide⟩

/-- Claim C1 (amended): truncation alone never exceeds the configured max (for
max ≥ 3), and with plain style the first line of `formatCommit` is within the
max; with conventional style, scope injection and chore-wrapping happen after
truncation and may exceed it, but by no more than twice the effective scope
length plus 11 (`feat!:` injection can be followed by chore-wrapping, adding
`(scope)` and then `chore(scope): `). -/
theorem c1_formatCommit_first_line_bound (payload : CommitPayload) (c : Config)
    (h3 : 3 ≤ cfgMaxSubjectLength c) :
    (truncate payload.subject (cfgMaxSubjectLength c)).length ≤ cfgMaxSubjectLength c ∧
    (cfgIsConventional c = false →
      (firstLine (formatCommit payload c)).length ≤ cfgMaxSubjectLength c) ∧
    (firstLine (formatCommit payload c)).length ≤
      cfgMaxSubjectLength c + 2 * (effectiveScope c payload.insightsScope).length + 11 := by
  have htr := truncate_length_le payload.subject (cfgMaxSubjectLength c) h3
  refine ⟨htr, ?_, ?_⟩
  · intro hpl
    simp only [formatCommit, hpl, Bool.false_eq_true, if_false]
    exact le_trans (firstLine_joinLines_le _ _) htr
  · by_cases hconv : cfgIsConventional c = true
    · simp only [formatCommit, hconv, if_true]
      refine le_trans (firstLine_joinLines_le _ _) ?_
      have h1 := ensureConventional_length_le
        (scopeInject (truncate payload.subject (cfgMaxSubjectLength c))
          (effectiveScope c payload.insightsScope))
        (effectiveScope c payload.insightsScope)
      have h2 := scopeInject_length_le
        (truncate payload.subject (cfgMaxSubjectLength c))
        (effectiveScope c payload.insightsScope)
      omega
    · rw [Bool.not_eq_true] at hconv
      simp only [formatCommit, hconv, Bool.false_eq_true, if_false]
      refine le_trans (firstLine_joinLines_le _ _) ?_
      omega

/-- Claim C1 witness: the amended bound at the counterexample's inputs. -/
theorem c1_formatCommit_first_line_bound_witness :
    3 ≤ cfgMaxSubjectLength c1Cfg ∧
    ((truncate c1Payload.subject (cfgMaxSubjectLength c1Cfg)).length ≤
        cfgMaxSubjectLength c1Cfg ∧
     (cfgIsConventional c1Cfg = false →
       (firstLine (formatCommit c1Payload c1Cfg)).length ≤ cfgMaxSubjectLength c1Cfg) ∧
     (firstLine (formatCommit c1Payload c1Cfg)).length ≤
       cfgMaxSubjectLength c1Cfg +
         2 * (effectiveScope c1Cfg c1Payload.insightsScope).length + 11) :=
  ⟨by decide, c1_formatCommit_first_line_bound c1Payload c1Cfg (by decide)⟩

/-! ### Claims C2 and C3 -/

/-- Each processed candidate stores exactly the validation of its own first
formatted line with its own bullets. -/
lemma processResponse_validation (c : Config) (insights : DiffInsights) (r : AiResponse) :
    (processResponse c insights r).validation =
      validateCommitContent (firstLine (processResponse c insights r).formatted)
        (processResponse c insights r).bullets c := rfl

lemma validCands_mem (c : Config) (insights : DiffInsights) (rs : List AiResponse)
    (n : NormCand) (hn : n ∈ validCands c insights rs) :
    (validateCommitContent (firstLine n.formatted) n.bullets c).valid = true := by
  unfold validCands at hn
  obtain ⟨hm, hv⟩ := List.mem_filter.mp hn
  obtain ⟨resp, _, rfl⟩ := List.mem_map.mp hm
  rw [← processResponse_validation]
  exact hv

lemma mkResult_pairs_valid (c : Config) (insights : DiffInsights) (rs : List AiResponse) :
    ∀ pr ∈ (mkResult (validCands c insights rs)).messages.zip
        (mkResult (validCands c insights rs)).raw,
      (validateCommitContent (firstLine pr.1) pr.2.2 c).valid = true := by
  intro pr hpr
  unfold mkResult at hpr
  rw [List.zip_map' (fun n : NormCand => n.formatted)
      (fun n : NormCand => (n.subject, n.bullets))] at hpr
  obtain ⟨n, hn, rfl⟩ := List.mem_map.mp hpr
  exact validCands_mem c insights rs n hn

/-- Claim C2: whenever `buildSuggestions` succeeds, every returned message's
first line together with its paired raw bullets re-validates to `valid`, and
the result is exactly `mkResult` of ALL valid candidates of the first
successful attempt (earlier attempts having produced no valid candidate). -/
theorem c2_buildSuggestions_returns_valid (c : Config) (insights : DiffInsights)
    (gen : Nat → List AiResponse) (r : BuildResult)
    (h : buildSuggestions c insights gen = Except.ok r) :
    (∀ pr ∈ r.messages.zip r.raw,
        (validateCommitContent (firstLine pr.1) pr.2.2 c).valid = true) ∧
    (∃ i, i < 3 ∧ (∀ j, j < i → validCands c insights (gen j) = []) ∧
        validCands c insights (gen i) ≠ [] ∧
        r = mkResult (validCands c insights (gen i))) := by
  unfold buildSuggestions at h
  by_cases h0 : (validCands c insights (gen 0)).isEmpty
  · by_cases h1 : (validCands c insights (gen 1)).isEmpty
    · by_cases h2 : (validCands c insights (gen 2)).isEmpty
      · rw [if_pos h0, if_pos h1, if_pos h2] at h
        exact absurd h (by simp)
      · rw [if_pos h0, if_pos h1, if_neg h2] at h
        have hr : mkResult (validCands c insights (gen 2)) = r := by
          exact Except.ok.inj h
        subst hr
        refine ⟨mkResult_pairs_valid c insights (gen 2), 2, by omega, ?_, ?_, rfl⟩
        · intro j hj
          interval_cases j
          · exact List.isEmpty_iff.mp h0
          · exact List.isEmpty_iff.mp h1
        · exact fun he => h2 (by simp [he])
    · rw [if_pos h0, if_neg h1] at h
      have hr : mkResult (validCands c insights (gen 1)) = r := Except.ok.inj h
      subst hr
      refine ⟨mkResult_pairs_valid c insights (gen 1), 1, by omega, ?_, ?_, rfl⟩
      · intro j hj
        interval_cases j
        exact List.isEmpty_iff.mp h0
      · exact fun he => h1 (by simp [he])
  · rw [if_neg h0] at h
    have hr : mkResult (validCands c insights (gen 0)) = r := Except.ok.inj h
    subst hr
    refine ⟨mkResult_pairs_valid c insights (gen 0), 0, by omega, ?_, ?_, rfl⟩
    · intro j hj
      omega
    · exact fun he => h0 (by simp [he])

/-- Claim C3: `buildSuggestions` consults only attempts 0, 1, 2 (its outcome
is unchanged by any generator agreeing on those attempts); it throws its
"no valid message" failure exactly when all three attempts produce no valid
candidate; and as soon as some attempt below 3 has a valid candidate it
returns the result of the FIRST such attempt. -/
theorem c3_buildSuggestions_retry_policy (c : Config) (insights : DiffInsights)
    (gen : Nat → List AiResponse) :
    (buildSuggestions c insights gen = Except.error buildFailureMsg ↔
      ∀ i, i < 3 → validCands c insights (gen i) = []) ∧
    (∀ gen2 : Nat → List AiResponse, (∀ i, i < 3 → gen i = gen2 i) →
      buildSuggestions c insights gen = buildSuggestions c insights gen2) ∧
    (∀ i, i < 3 → validCands c insights (gen i) ≠ [] →
      ∃ k, k ≤ i ∧ (∀ j, j < k → validCands c insights (gen j) = []) ∧
        validCands c insights (gen k) ≠ [] ∧
        buildSuggestions c insights gen =
          Except.ok (mkResult (validCands c insights (gen k)))) := by
  refine ⟨?_, ?_, ?_⟩
  · constructor
    · intro h i hi
      unfold buildSuggestions at h
      by_cases h0 : (validCands c insights (gen 0)).isEmpty
      · by_cases h1 : (validCands c insights (gen 1)).isEmpty
        · by_cases h2 : (validCands c insights (gen 2)).isEmpty
          · interval_cases i
            · exact List.isEmpty_iff.mp h0
            · exact List.isEmpty_iff.mp h1
            · exact List.isEmpty_iff.mp h2
          · rw [if_pos h0, if_pos h1, if_neg h2] at h
            exact absurd h (by simp)
        · rw [if_pos h0, if_neg h1] at h
          exact absurd h (by simp)
      · rw [if_neg h0] at h
        exact absurd h (by simp)
    · intro hall
      have h0 : (validCands c insights (gen 0)).isEmpty := by
        simp [hall 0 (by omega)]
      have h1 : (validCands c insights (gen 1)).isEmpty := by
        simp [hall 1 (by omega)]
      have h2 : (validCands c insights (gen 2)).isEmpty := by
        simp [hall 2 (by omega)]
      unfold buildSuggestions
      rw [if_pos h0, if_pos h1, if_pos h2]
  · intro gen2 hagree
    unfold buildSuggestions
    rw [hagree 0 (by omega), hagree 1 (by omega), hagree 2 (by omega)]
  · intro i hi hne
    unfold buildSuggestions
    by_cases h0 : (validCands c insights (gen 0)).isEmpty
    · by_cases h1 : (validCands c insights (gen 1)).isEmpty
      · have h2 : ¬(validCands c insights (gen 2)).isEmpty := by
          interval_cases i
          · exact absurd (List.isEmpty_iff.mp h0) hne
          · exact absurd (List.isEmpty_iff.mp h1) hne
          · simp [List.isEmpty_iff]
            exact hne
        rw [if_pos h0, if_pos h1, if_neg h2]
        refine ⟨2, ?_, ?_, ?_, rfl⟩
        · interval_cases i
          · exact absurd (List.isEmpty_iff.mp h0) hne
          · exact absurd (List.isEmpty_iff.mp h1) hne
          · omega
        · intro j hj
          interval_cases j
          · exact List.isEmpty_iff.mp h0
          · exact List.isEmpty_iff.mp h1
        · intro he
          exact h2 (by simp [he])
      · rw [if_pos h0, if_neg h1]
        refine ⟨1, ?_, ?_, ?_, rfl⟩
        · interval_cases i
          · exact absurd (List.isEmpty_iff.mp h0) hne
          · omega
          · omega
        · intro j hj
          interval_cases j
          exact List.isEmpty_iff.mp h0
        · intro he
          exact h1 (by simp [he])
    · rw [if_neg h0]
      refine ⟨0, by omega, by omega, ?_, rfl⟩
      intro he
      exact h0 (by simp [he])

def c23Cfg : Config :=
  { commit := some { styleOpt := some "conventional", maxSubjectLengthOpt := some 72,
                     maxBulletsOpt := some 2, bulletMarkOpt := some "-" }
  , scope := some "core" }

def c23Insights : DiffInsights :=
  { scope := none, topics := [], bulletPoints := [], summary := "", isFrontend := false,
    filesTouched := 1, fileKinds := [] }

def c2Gen : Nat → List AiResponse :=
  fun _ => [{ subject := "feat: add retry support", bullets := ["improve retry logic"] }]

def c2Result : BuildResult :=
  { messages := ["feat(core): add retry support\n- improve retry logic"]
  , raw := [("feat(core): add retry support", ["improve retry logic"])] }

/-- Claim C2 witness: the theorem applied to a concrete configuration,
insights, generator and its computed result. -/
theorem c2_buildSuggestions_returns_valid_witness :
    (∀ pr ∈ c2Result.messages.zip c2Result.raw,
        (validateCommitContent (firstLine pr.1) pr.2.2 c23Cfg).valid = true) ∧
    (∃ i, i < 3 ∧ (∀ j, j < i → validCands c23Cfg c23Insights (c2Gen j) = []) ∧
        validCands c23Cfg c23Insights (c2Gen i) ≠ [] ∧
        c2Result = mkResult (validCands c23Cfg c23Insights (c2Gen i))) :=
  c2_buildSuggestions_returns_valid c23Cfg c23Insights c2Gen c2Result (by rfl)

def c3BadGen : Nat → List AiResponse :=
  fun _ => [{ subject := "update stuff", bullets := [] }]

/-- Claim C3 witness: the exhaustion direction of the theorem at a generator
whose single candidate always fails validation. -/
theorem c3_buildSuggestions_retry_policy_witness :
    buildSuggestions c23Cfg c23Insights c3BadGen = Except.error buildFailureMsg :=
  (c3_buildSuggestions_retry_policy c23Cfg c23Insights c3BadGen).1.mpr (by decide)

/-! ### Claims C7 and C10: trim and parse helper lemmas -/

lemma letter_not_ws (c : Char) (h : isAsciiLetter c = true) : isWS c = false := by
  simp only [isAsciiLetter, Bool.or_eq_true, Bool.and_eq_true, decide_eq_true_eq] at h
  simp only [isWS, Bool.or_eq_false_iff, decide_eq_false_iff_not]
  omega

lemma string_eq_empty_iff (s : String) : s = "" ↔ s.toList = [] := by
  constructor
  · intro h
    rw [h]
    rfl
  · intro h
    have h1 : s = ofList s.toList := rfl
    rw [h1, h]
    rfl

lemma revDropWhile_prefix (p : Char → Bool) (l : List Char) :
    (l.reverse.dropWhile p).reverse <+: l := by
  obtain ⟨t, ht⟩ := List.dropWhile_suffix (l := l.reverse) (p := p)
  exact ⟨t.reverse, by rw [← List.reverse_append, ht, List.reverse_reverse]⟩

lemma head?_dropWhile_false (p : Char → Bool) (l : List Char) :
    ∀ c, (l.dropWhile p).head? = some c → p c = false := by
  induction l with
  | nil =>
    intro c hc
    simp at hc
  | cons x xs ih =>
    intro c hc
    rw [List.dropWhile_cons] at hc
    by_cases hx : p x
    · rw [if_pos hx] at hc
      exact ih c hc
    · rw [if_neg hx] at hc
      obtain rfl : x = c := by simpa using hc
      simpa using hx

lemma dropWhile_eq_self_head (p : Char → Bool) (l : List Char) (h : l.dropWhile p = l) :
    ∀ c, l.head? = some c → p c = false := by
  intro c hc
  rw [← h] at hc
  exact head?_dropWhile_false p l c hc

lemma head?_of_pref (a b : List Char) (h : a <+: b) (c : Char) (hc : a.head? = some c) :
    b.head? = some c := by
  obtain ⟨u, rfl⟩ := h
  cases a with
  | nil => simp at hc
  | cons x xs => simpa using hc

lemma trimLead_trimTrail_eq_self (l : List Char) (h : trimList l = l) :
    trimLeadList l = l ∧ trimTrailList l = l := by
  have hsuf : trimLeadList l <:+ l := List.dropWhile_suffix isWS
  have hpre : trimTrailList (trimLeadList l) <+: trimLeadList l := revDropWhile_prefix isWS _
  have h1 : (trimList l).length ≤ (trimLeadList l).length := hpre.length_le
  have h2 : (trimLeadList l).length ≤ l.length := hsuf.length_le
  rw [h] at h1
  have hlead : trimLeadList l = l := hsuf.eq_of_length (by omega)
  refine ⟨hlead, ?_⟩
  have h3 : trimTrailList l = trimList l := by
    show trimTrailList l = trimTrailList (trimLeadList l)
    rw [hlead]
  rw [h3, h]

/-- A trim-fixed list has a non-whitespace head and last element. -/
lemma trimList_fix_facts (l : List Char) (h : trimList l = l) :
    (∀ c, l.head? = some c → isWS c = false) ∧
    (∀ c, l.getLast? = some c → isWS c = false) := by
  obtain ⟨hlead, htrail⟩ := trimLead_trimTrail_eq_self l h
  constructor
  · exact dropWhile_eq_self_head isWS l hlead
  · intro c hc
    have hrev : l.reverse.dropWhile isWS = l.reverse := by
      have h4 := congrArg List.reverse htrail
      rwa [trimTrailList, List.reverse_reverse] at h4
    exact dropWhile_eq_self_head isWS l.reverse hrev c (by rwa [List.head?_reverse])

lemma trimList_eq_self_of (l : List Char)
    (h1 : ∀ c, l.head? = some c → isWS c = false)
    (h2 : ∀ c, l.getLast? = some c → isWS c = false) : trimList l = l := by
  have hlead : trimLeadList l = l := by
    cases l with
    | nil => rfl
    | cons c cs =>
      unfold trimLeadList
      rw [List.dropWhile_cons, if_neg]
      simp [h1 c rfl]
  have htrail : trimTrailList l = l := by
    unfold trimTrailList
    cases hrev : l.reverse with
    | nil =>
      have hl : l = [] := by simpa using congrArg List.reverse hrev
      rw [hl]
      rfl
    | cons c cs =>
      have hlast : l.getLast? = some c := by
        rw [← List.head?_reverse, hrev]
        rfl
      rw [List.dropWhile_cons, if_neg (by simp [h2 c hlast])]
      rw [← hrev, List.reverse_reverse]
  show trimTrailList (trimLeadList l) = l
  rw [hlead, htrail]

lemma trimList_idem (l : List Char) : trimList (trimList l) = trimList l := by
  by_cases h : trimList l = []
  · rw [h]
    rfl
  · apply trimList_eq_self_of
    · intro c hc
      have hpre : trimList l <+: trimLeadList l := revDropWhile_prefix isWS _
      exact head?_dropWhile_false isWS l c
        (head?_of_pref _ _ hpre c hc)
    · intro c hc
      have hh : ((trimLeadList l).reverse.dropWhile isWS).head? = some c := by
        have e1 : ((trimLeadList l).reverse.dropWhile isWS).head? =
            (trimList l).reverse.head? := by
          show _ = ((((trimLeadList l).reverse.dropWhile isWS).reverse).reverse).head?
          rw [List.reverse_reverse]
        rw [e1, List.head?_reverse]
        exact hc
      exact head?_dropWhile_false isWS _ c hh

lemma trimList_sublist (l : List Char) : List.Sublist (trimList l) l := by
  have h1 : trimList l <+: trimLeadList l := revDropWhile_prefix isWS _
  have h2 : trimLeadList l <:+ l := List.dropWhile_suffix isWS
  exact h1.sublist.trans h2.sublist

lemma parseScopePart_inv (r : List Char) (sc : Option (List Char)) (r2 : List Char)
    (h : parseScopePart r = some (sc, r2)) (l : List Char) (hl : sc = some l) :
    l ≠ [] ∧ ∀ c ∈ l, (c != ')') = true := by
  subst hl
  unfold parseScopePart at h
  split at h
  · next rest =>
    split at h
    · next r3 heq =>
      simp only [List.isEmpty_eq_true] at h
      split at h
      · exact absurd h (by simp)
      · next hne =>
        have h2 := Option.some.inj h
        have h3 : rest.takeWhile (fun c => c != ')') = l := congrArg Prod.fst h2 |> Option.some.inj
        constructor
        · rw [← h3]
          simpa using hne
        · intro c hc
          rw [← h3] at hc
          exact List.mem_takeWhile_imp (p := fun x => x != ')') (l := rest) hc
    · exact absurd h (by simp)
  · next hother =>
    have h2 := Option.some.inj h
    have := congrArg Prod.fst h2
    simp at this

lemma parseDescPart_inv (rest d : List Char) (h : parseDescPart rest = some d) :
    ∀ c ∈ d, isLineTerm c = false := by
  cases rest with
  | nil => simp [parseDescPart] at h
  | cons c0 cs =>
    rw [show parseDescPart (c0 :: cs) =
        (if !isWS c0 then none
         else if ((c0 :: cs).dropWhile isWS).isEmpty then
             if cs.isEmpty then none
             else
               match (c0 :: cs).getLast? with
               | some lastc => if isLineTerm lastc then none else some [lastc]
               | none => none
           else if ((c0 :: cs).dropWhile isWS).any isLineTerm then none
           else some ((c0 :: cs).dropWhile isWS)) from rfl] at h
    by_cases hws : (!isWS c0) = true
    · rw [if_pos hws] at h
      exact absurd h (by simp)
    · rw [if_neg hws] at h
      by_cases hr : (((c0 :: cs).dropWhile isWS).isEmpty) = true
      · rw [if_pos hr] at h
        by_cases hcs : (cs.isEmpty) = true
        · rw [if_pos hcs] at h
          exact absurd h (by simp)
        · rw [if_neg hcs] at h
          cases hlast : (c0 :: cs).getLast? with
          | none =>
            rw [hlast] at h
            dsimp only at h
            exact absurd h (by simp)
          | some lastc =>
            rw [hlast] at h
            dsimp only at h
            by_cases hlt : isLineTerm lastc = true
            · rw [if_pos hlt] at h
              exact absurd h (by simp)
            · rw [if_neg hlt] at h
              obtain rfl := Option.some.inj h
              intro c hc
              simp only [List.mem_singleton] at hc
              subst hc
              simpa using hlt
      · rw [if_neg hr] at h
        by_cases hany : (((c0 :: cs).dropWhile isWS).any isLineTerm) = true
        · rw [if_pos hany] at h
          exact absurd h (by simp)
        · rw [if_neg hany] at h
          obtain rfl := Option.some.inj h
          intro c hc
          rw [Bool.not_eq_true] at hany
          simpa using List.any_eq_false.mp hany c hc

/-- Everything `parseSubject` guarantees about a successful parse: the type is
a nonempty list of lowercase letters, a scope is nonempty and free of `)`,
and the description is trim-fixed and free of line terminators. -/
lemma parseSubject_inv (t : String) (p : ParsedSubject) (hp : parseSubject t = some p) :
    p.type.toList ≠ [] ∧
    (∀ c ∈ p.type.toList, isAsciiLetter c = true) ∧
    p.type.toList.map lowerChar = p.type.toList ∧
    (∀ s, p.scope = some s → s.toList ≠ [] ∧ ∀ c ∈ s.toList, (c != ')') = true) ∧
    trimList p.description.toList = p.description.toList ∧
    (∀ c ∈ p.description.toList, isLineTerm c = false) := by
  unfold parseSubject at hp
  simp only [List.isEmpty_eq_true] at hp
  split at hp
  · exact absurd hp (by simp)
  · next hty =>
    split at hp
    · exact absurd hp (by simp)
    · next sc r2 hscope =>
      simp only [parseAfterScope] at hp
      split at hp
      · next rest heq =>
        split at hp
        · exact absurd hp (by simp)
        · next d hdesc =>
          obtain rfl := Option.some.inj hp
          refine ⟨?_, ?_, ?_, ?_, ?_, ?_⟩
          · show (List.map lowerChar (t.toList.takeWhile isAsciiLetter)) ≠ []
            simpa using hty
          · intro c hc
            obtain ⟨c0, hc0, rfl⟩ := List.mem_map.mp hc
            exact (lowerChar_letter c0 (List.mem_takeWhile_imp hc0)).1
          · show List.map lowerChar (List.map lowerChar (t.toList.takeWhile isAsciiLetter)) =
              List.map lowerChar (t.toList.takeWhile isAsciiLetter)
            rw [List.map_map]
            apply List.map_congr_left
            intro a ha
            exact (lowerChar_letter a (List.mem_takeWhile_imp ha)).2.1
          · intro s hs
            cases sc with
            | none => simp at hs
            | some l =>
              have hs2 : s = ofList l := by
                simp only [Option.map_some'] at hs
                exact (Option.some.inj hs).symm
              obtain ⟨hl1, hl2⟩ := parseScopePart_inv _ _ _ hscope l rfl
              subst hs2
              exact ⟨hl1, hl2⟩
          · exact trimList_idem d
          · intro c hc
            exact parseDescPart_inv rest d hdesc c ((trimList_sublist d).subset hc)
      · exact absurd hp (by simp)

lemma takeWhile_dropWhile_append (p : Char → Bool) (a b : List Char)
    (ha : ∀ c ∈ a, p c = true) (hb : ∀ c, b.head? = some c → p c = false) :
    (a ++ b).takeWhile p = a ∧ (a ++ b).dropWhile p = b := by
  induction a with
  | nil =>
    simp only [List.nil_append]
    cases b with
    | nil => exact ⟨rfl, rfl⟩
    | cons c cs =>
      have hc := hb c rfl
      rw [List.takeWhile_cons, List.dropWhile_cons, if_neg (by simp [hc]),
        if_neg (by simp [hc])]
      exact ⟨rfl, rfl⟩
  | cons x xs ih =>
    have hx := ha x (List.mem_cons_self _ _)
    obtain ⟨h1, h2⟩ := ih (fun c hc => ha c (List.mem_cons_of_mem _ hc))
    rw [List.cons_append, List.takeWhile_cons, List.dropWhile_cons,
      if_pos (by simp [hx]), if_pos (by simp [hx]), h1, h2]
    exact ⟨rfl, rfl⟩

lemma parseScopePart_paren (s r2 : List Char)
    (h1 : s ≠ []) (h2 : ∀ c ∈ s, (c != ')') = true) :
    parseScopePart ('(' :: (s ++ ')' :: r2)) = some (some s, r2) := by
  obtain ⟨htw, hdw⟩ := takeWhile_dropWhile_append (fun c => c != ')') s (')' :: r2) h2
    (fun c hc => by
      obtain rfl : ')' = c := by simpa using hc
      decide)
  simp only [parseScopePart]
  rw [htw, hdw]
  show (if s.isEmpty = true then none else some (some s, r2) :
      Option (Option (List Char) × List Char)) = some (some s, r2)
  rw [if_neg (by simp [h1])]

lemma parseScopePart_nonparen (r : List Char)
    (hr : ∀ c, r.head? = some c → c ≠ '(') :
    parseScopePart r = some (none, r) := by
  cases r with
  | nil => rfl
  | cons c cs =>
    have hc := hr c rfl
    unfold parseScopePart
    split
    · next rest heq =>
      obtain ⟨rfl, -⟩ := List.cons.injEq .. ▸ heq
      exact absurd rfl hc
    · rfl

lemma parseDescPart_space (desc : List Char) (h1 : desc ≠ [])
    (h2 : ∀ c, desc.head? = some c → isWS c = false)
    (h3 : ∀ c ∈ desc, isLineTerm c = false) :
    parseDescPart (' ' :: desc) = some desc := by
  have hdw : (' ' :: desc).dropWhile isWS = desc := by
    rw [List.dropWhile_cons, if_pos (by decide)]
    cases desc with
    | nil => rfl
    | cons c cs => rw [List.dropWhile_cons, if_neg (by simp [h2 c rfl])]
  rw [show parseDescPart (' ' :: desc) =
      (if !isWS ' ' then none
       else if ((' ' :: desc).dropWhile isWS).isEmpty then
           if desc.isEmpty then none
           else
             match (' ' :: desc).getLast? with
             | some lastc => if isLineTerm lastc then none else some [lastc]
             | none => none
         else if ((' ' :: desc).dropWhile isWS).any isLineTerm then none
         else some ((' ' :: desc).dropWhile isWS)) from rfl]
  rw [if_neg (by decide), hdw]
  rw [if_neg (by simp [h1])]
  rw [if_neg (by
    rw [Bool.not_eq_true]
    exact List.any_eq_false.mpr (fun x hx => by simp [h3 x hx]))]

lemma append_ne_nil_right (a b : List Char) (hb : b ≠ []) : a ++ b ≠ [] := by
  intro h
  exact hb (List.append_eq_nil.mp h).2

lemma getLast?_append_ne (a b : List Char) (hb : b ≠ []) :
    (a ++ b).getLast? = b.getLast? :=
  List.getLast?_append_of_ne_nil a hb

lemma head?_append_left_char (a b : List Char) (c : Char) (h : a.head? = some c) :
    (a ++ b).head? = some c := by
  cases a with
  | nil => simp at h
  | cons x xs => exact h

lemma strip_eq_self (s : String) (h : endsWithPunct s = false) :
    stripTrailingPunctuation s = s := by
  cases hrev : s.toList.reverse with
  | nil =>
    have h0 : s.toList = [] := by simpa using congrArg List.reverse hrev
    show ofList ((s.toList.reverse.dropWhile isPunctChar).reverse) = ofList s.toList
    rw [h0]
    rfl
  | cons c cs =>
    have hlast : s.toList.getLast? = some c := by
      rw [← List.head?_reverse, hrev]
      rfl
    have h2 : isPunctChar c = false := by
      unfold endsWithPunct at h
      rw [hlast] at h
      exact h
    show ofList ((s.toList.reverse.dropWhile isPunctChar).reverse) = s
    rw [hrev, List.dropWhile_cons, if_neg (by simp [h2]), ← hrev, List.reverse_reverse]
    rfl

lemma renderSubject_toList_some (ty s : String) (breaking : Bool) (desc : String)
    (hs : s.toList ≠ []) :
    (renderSubject ty (some s) breaking desc).toList =
      ty.toList ++ (('(' :: (s.toList ++ [')'])) ++
        ((if breaking then ['!'] else []) ++ (':' :: ' ' :: desc.toList))) := by
  have hse : strIsEmpty s = false := by
    simp only [strIsEmpty, List.isEmpty_eq_true]
    simpa using hs
  show (ty ++ (if strIsEmpty s then "" else "(" ++ s ++ ")") ++
      (if breaking then "!" else "") ++ ": " ++ desc).toList = _
  rw [if_neg (by simp [hse])]
  have h1 : ("(" : String).data = ['('] := rfl
  have h2 : (")" : String).data = [')'] := rfl
  have h3 : (": " : String).data = [':', ' '] := rfl
  have h4 : ("!" : String).data = ['!'] := rfl
  cases breaking <;>
    simp [String.toList, String.data_append, h1, h2, h3, h4, List.append_assoc]

lemma renderSubject_toList_none (ty : String) (breaking : Bool) (desc : String) :
    (renderSubject ty none breaking desc).toList =
      ty.toList ++ (([] : List Char) ++
        ((if breaking then ['!'] else []) ++ (':' :: ' ' :: desc.toList))) := by
  show (ty ++ "" ++ (if breaking then "!" else "") ++ ": " ++ desc).toList = _
  have h3 : (": " : String).data = [':', ' '] := rfl
  have h4 : ("!" : String).data = ['!'] := rfl
  have h0 : ("" : String).data = [] := rfl
  cases breaking <;>
    simp [String.toList, String.data_append, h0, h3, h4, List.append_assoc]

lemma choreWrap_toList (sf t : String) :
    ("chore(" ++ sf ++ "): " ++ t).toList =
      ("chore" : String).toList ++ (('(' :: (sf.toList ++ [')'])) ++
        (([] : List Char) ++ (':' :: ' ' :: t.toList))) := by
  have h1 : ("chore(" : String).data = ['c', 'h', 'o', 'r', 'e', '('] := rfl
  have h2 : ("): " : String).data = [')', ':', ' '] := rfl
  have h3 : ("chore" : String).data = ['c', 'h', 'o', 'r', 'e'] := rfl
  simp [String.toList, String.data_append, h1, h2, h3, List.append_assoc]

lemma parseAfterScope_eval (ty : List Char) (sc : Option (List Char)) (breaking : Bool)
    (desc : List Char) (h1 : desc ≠ [])
    (h2 : ∀ c, desc.head? = some c → isWS c = false)
    (h3 : ∀ c ∈ desc, isLineTerm c = false) :
    parseAfterScope ty sc ((if breaking then ['!'] else []) ++ (':' :: ' ' :: desc)) =
      some { type := ofList (ty.map lowerChar), scope := sc.map ofList
           , description := ofList (trimList desc), breaking := breaking } := by
  cases breaking with
  | false =>
    show ((match parseDescPart (' ' :: desc) with
          | none => none
          | some d =>
            some { type := ofList (ty.map lowerChar), scope := sc.map ofList
                 , description := ofList (trimList d), breaking := false }) :
        Option ParsedSubject) =
        some { type := ofList (ty.map lowerChar), scope := sc.map ofList
             , description := ofList (trimList desc), breaking := false }
    rw [parseDescPart_space desc h1 h2 h3]
  | true =>
    show ((match parseDescPart (' ' :: desc) with
          | none => none
          | some d =>
            some { type := ofList (ty.map lowerChar), scope := sc.map ofList
                 , description := ofList (trimList d), breaking := true }) :
        Option ParsedSubject) =
        some { type := ofList (ty.map lowerChar), scope := sc.map ofList
             , description := ofList (trimList desc), breaking := true }
    rw [parseDescPart_space desc h1 h2 h3]

/-- Successful parse of a subject given in decomposed conventional form:
type, optional scope, optional bang, colon, one space, description. -/
lemma parseSubject_decomp (full ty : String) (scope : Option String)
    (breaking : Bool) (desc : String)
    (hfull : full.toList = ty.toList ++
      ((match scope with
        | some s => '(' :: (s.toList ++ [')'])
        | none => ([] : List Char)) ++
       ((if breaking then ['!'] else []) ++ (':' :: ' ' :: desc.toList))))
    (hty1 : ty.toList ≠ [])
    (hty2 : ∀ c ∈ ty.toList, isAsciiLetter c = true)
    (hty3 : ty.toList.map lowerChar = ty.toList)
    (hsc : ∀ s, scope = some s → s.toList ≠ [] ∧ ∀ c ∈ s.toList, (c != ')') = true)
    (hd1 : desc.toList ≠ [])
    (hd2 : ∀ c, desc.toList.head? = some c → isWS c = false)
    (hd3 : ∀ c ∈ desc.toList, isLineTerm c = false) :
    parseSubject full = some { type := ty, scope := scope
                             , description := ofList (trimList desc.toList)
                             , breaking := breaking } := by
  cases scope with
  | some s =>
    obtain ⟨hs1, hs2⟩ := hsc s rfl
    have hfull2 : full.toList = ty.toList ++
        ('(' :: (s.toList ++ ')' :: ((if breaking then ['!'] else []) ++
          (':' :: ' ' :: desc.toList)))) := by
      rw [hfull]
      show ty.toList ++ (('(' :: (s.toList ++ [')'])) ++
          ((if breaking then ['!'] else []) ++ (':' :: ' ' :: desc.toList))) = _
      simp [List.append_assoc]
    obtain ⟨htw, hdw⟩ := takeWhile_dropWhile_append isAsciiLetter ty.toList
      ('(' :: (s.toList ++ ')' :: ((if breaking then ['!'] else []) ++
        (':' :: ' ' :: desc.toList)))) hty2
      (fun c hc => by
        obtain rfl : '(' = c := by simpa using hc
        decide)
    simp only [parseSubject]
    rw [hfull2, htw, hdw]
    rw [if_neg (by simp only [List.isEmpty_eq_true]; exact hty1)]
    rw [parseScopePart_paren s.toList _ hs1 hs2]
    show parseAfterScope ty.toList (some s.toList)
        ((if breaking then ['!'] else []) ++ (':' :: ' ' :: desc.toList)) =
      some { type := ty, scope := some s
           , description := ofList (trimList desc.toList), breaking := breaking }
    rw [parseAfterScope_eval ty.toList (some s.toList) breaking desc.toList hd1 hd2 hd3,
      hty3]
    rfl
  | none =>
    have hfull2 : full.toList = ty.toList ++
        ((if breaking then ['!'] else []) ++ (':' :: ' ' :: desc.toList)) := by
      exact hfull
    obtain ⟨htw, hdw⟩ := takeWhile_dropWhile_append isAsciiLetter ty.toList
      ((if breaking then ['!'] else []) ++ (':' :: ' ' :: desc.toList)) hty2
      (fun c hc => by
        cases breaking with
        | true =>
          obtain rfl : '!' = c := by simpa using hc
          decide
        | false =>
          obtain rfl : ':' = c := by simpa using hc
          decide)
    simp only [parseSubject]
    rw [hfull2, htw, hdw]
    rw [if_neg (by simp only [List.isEmpty_eq_true]; exact hty1)]
    rw [parseScopePart_nonparen _ (fun c hc => by
      cases breaking with
      | true =>
        obtain rfl : '!' = c := by simpa using hc
        decide
      | false =>
        obtain rfl : ':' = c := by simpa using hc
        decide)]
    show parseAfterScope ty.toList none
        ((if breaking then ['!'] else []) ++ (':' :: ' ' :: desc.toList)) =
      some { type := ty, scope := none
           , description := ofList (trimList desc.toList), breaking := breaking }
    rw [parseAfterScope_eval ty.toList none breaking desc.toList hd1 hd2 hd3, hty3]
    rfl

/-! ### Claim C7 -/

/-- Claim C7: `normalizeSubject` is idempotent — for a subject that parses
after trim/strip, provided the parsed description is nonempty and does not end
in punctuation, and `feat`/`fix` subjects already carry a scope (so the
fallback is not injected), normalising a second time changes nothing. -/
theorem c7_normalizeSubject_idempotent (s scopeFallback : String) (p : ParsedSubject)
    (hp : parseSubject (stripTrailingPunctuation (jsTrim s)) = some p)
    (hscope : (p.type = "feat" ∨ p.type = "fix") → p.scope ≠ none)
    (hdesc : p.description ≠ "")
    (hpunct : endsWithPunct p.description = false) :
    normalizeSubject (normalizeSubject s scopeFallback) scopeFallback =
      normalizeSubject s scopeFallback := by
  obtain ⟨hty1, hty2, hty3, hsc, htrim, hlt⟩ := parseSubject_inv _ _ hp
  have hdl : p.description.toList ≠ [] :=
    fun h0 => hdesc ((string_eq_empty_iff _).mpr h0)
  obtain ⟨hdhead, hdlast⟩ := trimList_fix_facts _ htrim
  obtain ⟨dl, hdl2⟩ : ∃ c, p.description.toList.getLast? = some c := by
    cases hq : p.description.toList.getLast? with
    | none => exact absurd (by simpa using hq) hdl
    | some c => exact ⟨c, rfl⟩
  have hdp : isPunctChar dl = false := by
    unfold endsWithPunct at hpunct
    rw [hdl2] at hpunct
    exact hpunct
  have hdw : isWS dl = false := hdlast dl hdl2
  have hns : ((p.type == "feat" || p.type == "fix") && p.scope.isNone) = false := by
    cases hsco : p.scope with
    | some v => simp
    | none =>
      have hft : ¬(p.type = "feat" ∨ p.type = "fix") := fun h => hscope h hsco
      push_neg at hft
      simp [hft.1, hft.2]
  have hout : normalizeSubject s scopeFallback =
      renderSubject p.type p.scope p.breaking p.description := by
    simp only [normalizeSubject]
    rw [hp]
    show renderSubject p.type
        (if ((p.type == "feat" || p.type == "fix") && p.scope.isNone) then some scopeFallback
         else p.scope) p.breaking p.description =
      renderSubject p.type p.scope p.breaking p.description
    rw [if_neg (by simp [hns])]
  rw [hout]
  cases hsco : p.scope with
  | some v =>
    obtain ⟨hv1, hv2⟩ := hsc v hsco
    have houtL : (renderSubject p.type (some v) p.breaking p.description).toList =
        p.type.toList ++ (('(' :: (v.toList ++ [')'])) ++
          ((if p.breaking then ['!'] else []) ++ (':' :: ' ' :: p.description.toList))) :=
      renderSubject_toList_some _ _ _ _ hv1
    have hlastout :
        (renderSubject p.type (some v) p.breaking p.description).toList.getLast? =
          some dl := by
      rw [houtL,
        getLast?_append_ne _ _
          (append_ne_nil_right _ _ (append_ne_nil_right _ _ (List.cons_ne_nil _ _))),
        getLast?_append_ne _ _ (append_ne_nil_right _ _ (List.cons_ne_nil _ _)),
        getLast?_append_ne _ _ (List.cons_ne_nil _ _),
        show (':' :: ' ' :: p.description.toList) = [':', ' '] ++ p.description.toList
          from rfl,
        getLast?_append_ne _ _ hdl]
      exact hdl2
    have hheadout : ∀ c,
        (renderSubject p.type (some v) p.breaking p.description).toList.head? = some c →
          isWS c = false := by
      intro c hc
      rw [houtL] at hc
      cases hT : p.type.toList with
      | nil => exact absurd hT hty1
      | cons t0 ts =>
        rw [hT] at hc
        have ht0 : some t0 = some c := hc
        obtain rfl := Option.some.inj ht0
        exact letter_not_ws t0 (hty2 t0 (by rw [hT]; exact List.mem_cons_self _ _))
    have htrout : trimList (renderSubject p.type (some v) p.breaking p.description).toList =
        (renderSubject p.type (some v) p.breaking p.description).toList :=
      trimList_eq_self_of _ hheadout (fun c hc => by
        rw [hlastout] at hc
        obtain rfl := Option.some.inj hc
        exact hdw)
    have hjt : jsTrim (renderSubject p.type (some v) p.breaking p.description) =
        renderSubject p.type (some v) p.breaking p.description := by
      unfold jsTrim
      rw [htrout]
      rfl
    have hstr : stripTrailingPunctuation
        (renderSubject p.type (some v) p.breaking p.description) =
        renderSubject p.type (some v) p.breaking p.description :=
      strip_eq_self _ (by unfold endsWithPunct; rw [hlastout]; exact hdp)
    have hparse2 : parseSubject (renderSubject p.type (some v) p.breaking p.description) =
        some { type := p.type, scope := some v
             , description := p.description, breaking := p.breaking } := by
      have hdec := parseSubject_decomp
        (renderSubject p.type (some v) p.breaking p.description)
        p.type (some v) p.breaking p.description houtL hty1 hty2 hty3
        (fun s0 hs0 => by obtain rfl := Option.some.inj hs0; exact ⟨hv1, hv2⟩)
        hdl hdhead hlt
      rw [htrim] at hdec
      exact hdec
    simp only [normalizeSubject]
    rw [hjt, hstr, hparse2]
    show renderSubject p.type
        (if ((p.type == "feat" || p.type == "fix") && (some v : Option String).isNone)
         then some scopeFallback else some v) p.breaking p.description =
      renderSubject p.type (some v) p.breaking p.description
    rw [if_neg (by simp)]
  | none =>
    have hft : (p.type == "feat" || p.type == "fix") = false := by
      by_cases h1 : p.type = "feat" ∨ p.type = "fix"
      · exact absurd hsco (hscope h1)
      · push_neg at h1
        simp [h1.1, h1.2]
    have houtL : (renderSubject p.type none p.breaking p.description).toList =
        p.type.toList ++ (([] : List Char) ++
          ((if p.breaking then ['!'] else []) ++ (':' :: ' ' :: p.description.toList))) :=
      renderSubject_toList_none _ _ _
    have hlastout :
        (renderSubject p.type none p.breaking p.description).toList.getLast? =
          some dl := by
      rw [houtL,
        getLast?_append_ne _ _
          (append_ne_nil_right _ _ (append_ne_nil_right _ _ (List.cons_ne_nil _ _))),
        getLast?_append_ne _ _ (append_ne_nil_right _ _ (List.cons_ne_nil _ _)),
        getLast?_append_ne _ _ (List.cons_ne_nil _ _),
        show (':' :: ' ' :: p.description.toList) = [':', ' '] ++ p.description.toList
          from rfl,
        getLast?_append_ne _ _ hdl]
      exact hdl2
    have hheadout : ∀ c,
        (renderSubject p.type none p.breaking p.description).toList.head? = some c →
          isWS c = false := by
      intro c hc
      rw [houtL] at hc
      cases hT : p.type.toList with
      | nil => exact absurd hT hty1
      | cons t0 ts =>
        rw [hT] at hc
        have ht0 : some t0 = some c := hc
        obtain rfl := Option.some.inj ht0
        exact letter_not_ws t0 (hty2 t0 (by rw [hT]; exact List.mem_cons_self _ _))
    have htrout : trimList (renderSubject p.type none p.breaking p.description).toList =
        (renderSubject p.type none p.breaking p.description).toList :=
      trimList_eq_self_of _ hheadout (fun c hc => by
        rw [hlastout] at hc
        obtain rfl := Option.some.inj hc
        exact hdw)
    have hjt : jsTrim (renderSubject p.type none p.breaking p.description) =
        renderSubject p.type none p.breaking p.description := by
      unfold jsTrim
      rw [htrout]
      rfl
    have hstr : stripTrailingPunctuation
        (renderSubject p.type none p.breaking p.description) =
        renderSubject p.type none p.breaking p.description :=
      strip_eq_self _ (by unfold endsWithPunct; rw [hlastout]; exact hdp)
    have hparse2 : parseSubject (renderSubject p.type none p.breaking p.description) =
        some { type := p.type, scope := none
             , description := p.description, breaking := p.breaking } := by
      have hdec := parseSubject_decomp
        (renderSubject p.type none p.breaking p.description)
        p.type none p.breaking p.description houtL hty1 hty2 hty3
        (fun s0 hs0 => Option.noConfusion hs0)
        hdl hdhead hlt
      rw [htrim] at hdec
      exact hdec
    simp only [normalizeSubject]
    rw [hjt, hstr, hparse2]
    show renderSubject p.type
        (if ((p.type == "feat" || p.type == "fix") && (none : Option String).isNone)
         then some scopeFallback else none) p.breaking p.description =
      renderSubject p.type none p.breaking p.description
    rw [if_neg (by simp [hft])]

/-- A counterexample to the unqualified idempotence claim: a description ending
in `; .` keeps its `;` after one normalisation (the strip only removes the
trailing run `␣.` ... in fact the run `.` since the space stops it), and loses
it on the second pass. -/
theorem c7_counterexample :
    normalizeSubject "feat(core): add x; ." "core" = "feat(core): add x;" ∧
    normalizeSubject (normalizeSubject "feat(core): add x; ." "core") "core" =
      "feat(core): add x" ∧
    normalizeSubject (normalizeSubject "feat(core): add x; ." "core") "core" ≠
      normalizeSubject "feat(core): add x; ." "core" :=
  ⟨by decide, by decide, by decide⟩

theorem c7_normalizeSubject_idempotent_witness :
    normalizeSubject (normalizeSubject "feat(core): add retry" "web") "web" =
      normalizeSubject "feat(core): add retry" "web" :=
  c7_normalizeSubject_idempotent "feat(core): add retry" "web"
    { type := "feat", scope := some "core", description := "add retry", breaking := false }
    (by decide) (by decide) (by decide) (by decide)

/-! ### Claim C10 -/

/-- Claim C10: the output of `normalizeSubject` parses as a conventional
subject — provided the input has no line terminators, the scope fallback is a
nonempty `)`-free string, the trimmed/stripped input is nonempty, and a
successful parse of the trimmed input has a nonempty description. -/
theorem c10_normalized_parses (s scopeFallback : String)
    (hnl : ∀ c ∈ s.toList, isLineTerm c = false)
    (hsf1 : scopeFallback.toList ≠ [])
    (hsf2 : ∀ c ∈ scopeFallback.toList, (c != ')') = true)
    (hne : stripTrailingPunctuation (jsTrim s) ≠ "")
    (hblank : ∀ p, parseSubject (stripTrailingPunctuation (jsTrim s)) = some p →
      p.description ≠ "") :
    ∃ q, parseSubject (normalizeSubject s scopeFallback) = some q := by
  cases hparse : parseSubject (stripTrailingPunctuation (jsTrim s)) with
  | none =>
    have hT1 : (stripTrailingPunctuation (jsTrim s)).toList ≠ [] :=
      fun h0 => hne ((string_eq_empty_iff _).mpr h0)
    have hpre : (stripTrailingPunctuation (jsTrim s)).toList <+: trimList s.toList :=
      revDropWhile_prefix isPunctChar (trimList s.toList)
    have hfix := trimList_fix_facts (trimList s.toList) (trimList_idem s.toList)
    have hT2 : ∀ c, (stripTrailingPunctuation (jsTrim s)).toList.head? = some c →
        isWS c = false :=
      fun c hc => hfix.1 c (head?_of_pref _ _ hpre c hc)
    have hT3 : ∀ c ∈ (stripTrailingPunctuation (jsTrim s)).toList, isLineTerm c = false :=
      fun c hc => hnl c ((hpre.sublist.trans (trimList_sublist s.toList)).subset hc)
    simp only [normalizeSubject]
    rw [hparse]
    show ∃ q, parseSubject
        ("chore(" ++ scopeFallback ++ "): " ++ stripTrailingPunctuation (jsTrim s)) =
      some q
    exact ⟨_, parseSubject_decomp _ "chore" (some scopeFallback) false
      (stripTrailingPunctuation (jsTrim s))
      (choreWrap_toList scopeFallback (stripTrailingPunctuation (jsTrim s)))
      (by decide) (by decide) (by decide)
      (fun s0 hs0 => by obtain rfl := Option.some.inj hs0; exact ⟨hsf1, hsf2⟩)
      hT1 hT2 hT3⟩
  | some p =>
    obtain ⟨hty1, hty2, hty3, hsc, htrim, hlt⟩ :=
      parseSubject_inv (stripTrailingPunctuation (jsTrim s)) p hparse
    have hdl : p.description.toList ≠ [] :=
      fun h0 => hblank p hparse ((string_eq_empty_iff _).mpr h0)
    obtain ⟨hdhead, -⟩ := trimList_fix_facts _ htrim
    simp only [normalizeSubject]
    rw [hparse]
    show ∃ q, parseSubject
        (renderSubject p.type
          (if ((p.type == "feat" || p.type == "fix") && p.scope.isNone)
           then some scopeFallback else p.scope) p.breaking p.description) =
      some q
    by_cases hcond : ((p.type == "feat" || p.type == "fix") && p.scope.isNone) = true
    · rw [if_pos hcond]
      exact ⟨_, parseSubject_decomp _ p.type (some scopeFallback) p.breaking p.description
        (renderSubject_toList_some _ _ _ _ hsf1) hty1 hty2 hty3
        (fun s0 hs0 => by obtain rfl := Option.some.inj hs0; exact ⟨hsf1, hsf2⟩)
        hdl hdhead hlt⟩
    · rw [if_neg hcond]
      cases hsco : p.scope with
      | some v =>
        obtain ⟨hv1, hv2⟩ := hsc v hsco
        exact ⟨_, parseSubject_decomp _ p.type (some v) p.breaking p.description
          (renderSubject_toList_some _ _ _ _ hv1) hty1 hty2 hty3
          (fun s0 hs0 => by obtain rfl := Option.some.inj hs0; exact ⟨hv1, hv2⟩)
          hdl hdhead hlt⟩
      | none =>
        exact ⟨_, parseSubject_decomp _ p.type none p.breaking p.description
          (renderSubject_toList_none _ _ _) hty1 hty2 hty3
          (fun s0 hs0 => Option.noConfusion hs0)
          hdl hdhead hlt⟩

/-- A counterexample to the unqualified claim: an input containing a newline
survives into the chore-wrapped fallback, whose description then violates the
regex (`.` matches no line terminator), so the normalized subject does not
parse. -/
theorem c10_counterexample :
    stripTrailingPunctuation (jsTrim "foo\nbar") ≠ "" ∧
    parseSubject (normalizeSubject "foo\nbar" "core") = none :=
  ⟨by decide, by decide⟩

theorem c10_normalized_parses_witness :
    ∃ q, parseSubject (normalizeSubject "feat: add retry" "core") = some q :=
  c10_normalized_parses "feat: add retry" "core" (by decide) (by decide) (by decide)
    (by decide)
    (fun p hp => by
      have h3 : parseSubject (stripTrailingPunctuation (jsTrim "feat: add retry")) =
          some { type := "feat", scope := none, description := "add retry"
               , breaking := false } := by
        decide
      obtain rfl := Option.some.inj (h3.symm.trans hp)
      decide)

theorem c8_mock_deterministic_witness :
    (1 < 3) ∧
    ((mockGenerateMany { insights := { topics := ["parsing", "retry"]
                                     , scope := some "core"
                                     , bulletPoints := ["improve retry logic"]
                                     , summary := "core updates" } } 3)[1]? =
      some { subject := takeStr (buildMockSubject { topics := ["parsing", "retry"]
                                                  , scope := some "core"
                                                  , bulletPoints := ["improve retry logic"]
                                                  , summary := "core updates" } 1) 72
           , bullets := localSanitizeBullets (["improve retry logic"].drop 1)
           , rationale := [] }) :=
  ⟨by decide,
    (c8_mock_deterministic { insights := { topics := ["parsing", "retry"]
                                         , scope := some "core"
                                         , bulletPoints := ["improve retry logic"]
                                         , summary := "core updates" } } 3 1
      (by decide)).2.2.1⟩

end Piqnote
